import Mathlib

set_option maxRecDepth 4000

/-!
Verification of the NVDAPlugIns repository against its specification.

The development shallowly embeds the Python sources:
  * `addon/globalPlugins/windowsDictationSilence.py` (the Windows-dictation
    speech-silencing plugin): plugin state becomes `DictationState`, the
    plugin methods become state-transition functions.
  * `addon/appModules/powerpnt.py` (the PowerPoint comment-navigation
    worker): worker state becomes `WorkerState`; the live COM values a
    method would query from PowerPoint become a `ComEnv` record; methods
    become functions from environment and state to new state plus the
    list of queued `ui.message` announcements (in order).
  * `build-tools/bump_version.py` and `build-tools/build_addon.py`:
    the regex-based manifest handling is embedded as executable functions
    on `List Char`; `raise ValueError` becomes `Except.error`.

Only successful external calls are modelled (COM calls that the Python
code wraps in try/except and swallows are modelled by their success
path, which is the behaviour the specification describes).
-/

/-! ## Part 1: windows-dictation-silence (`windowsDictationSilence.py`) -/

/-- NVDA speech modes (`speech.SpeechMode`): `off`, `beeps`, `talk`, `onDemand`. -/
inductive SpeechMode where
  | off
  | beeps
  | talk
  | onDemand
  deriving DecidableEq

/-- An input gesture; the plugin only ever reads its identifiers (for logging),
so the payload is irrelevant to the modelled behaviour. -/
structure Gesture where
  identifiers : List String
  deriving DecidableEq

/-- The plugin state of `GlobalPlugin` (`__init__`), together with NVDA's global
speech mode (`speech.getState().speechMode` / `speech.setSpeechMode`), which the
plugin reads and writes. -/
structure DictationState where
  previous_speech_mode : Option SpeechMode
  voice_typing_active : Bool
  gesture_filter_installed : Bool
  speechMode : SpeechMode
  deriving DecidableEq

/-- `GlobalPlugin._install_gesture_filter`: registers the filter with
`inputCore.decide_executeGesture` unless it is already installed
(success path of the try/except). -/
def install_gesture_filter (s : DictationState) : DictationState :=
  if s.gesture_filter_installed then s
  else { s with gesture_filter_installed := true }

/-- `GlobalPlugin._remove_gesture_filter`: unregisters the filter unless it
is not installed (success path of the try/except). -/
def remove_gesture_filter (s : DictationState) : DictationState :=
  if ¬ s.gesture_filter_installed then s
  else { s with gesture_filter_installed := false }

/-- `GlobalPlugin._start_voice_typing_mode`: save current speech mode, set
speech mode to off, mark voice typing active, install the gesture filter. -/
def start_voice_typing_mode (s : DictationState) : DictationState :=
  let s1 := { s with previous_speech_mode := some s.speechMode }
  let s2 := { s1 with speechMode := SpeechMode.off }
  let s3 := { s2 with voice_typing_active := true }
  install_gesture_filter s3

/-- `GlobalPlugin._end_voice_typing_mode`: remove the gesture filter, clear the
active flag, and if a previous speech mode was saved restore it and reset the
saved mode to `None`. -/
def end_voice_typing_mode (s : DictationState) : DictationState :=
  let s1 := remove_gesture_filter s
  let s2 := { s1 with voice_typing_active := false }
  match s2.previous_speech_mode with
  | some m => { s2 with speechMode := m, previous_speech_mode := none }
  | none => s2

/-- `GlobalPlugin._gesture_filter`: for every gesture, if voice typing is not
active do nothing; otherwise end voice typing mode.  Either way return `True`
(the gesture is allowed to proceed).  The gesture itself is only used for
logging. -/
def gesture_filter (s : DictationState) (_g : Gesture) : DictationState × Bool :=
  if ¬ s.voice_typing_active then (s, true)
  else (end_voice_typing_mode s, true)

/-- `GlobalPlugin.script_toggleVoiceTyping` (bound to `kb:windows+h`): passes
the gesture through (`gesture.send()`, an external effect), then starts voice
typing mode if it is not currently active; otherwise does nothing further. -/
def script_toggleVoiceTyping (s : DictationState) (_g : Gesture) : DictationState :=
  if ¬ s.voice_typing_active then start_voice_typing_mode s
  else s

/-! ## Part 2: shared string machinery (regexes of the build tools and of
`powerpnt.py`, embedded as executable functions on `List Char`) -/

/-- Python's `\s` on the notes/manifest text (the ASCII whitespace characters
`' '`, `'\t'`, `'\n'`, `'\r'`, `'\x0b'`, `'\x0c'`). -/
def isSpace (c : Char) : Bool :=
  c = ' ' || c = '\t' || c = '\n' || c = '\r' || c = '\x0B' || c = '\x0C'

/-- Greedy `\s*`: drop the maximal whitespace run at the head. -/
def dropWs (l : List Char) : List Char := l.dropWhile isSpace

/-- Is `pat` a contiguous sublist of `l`?  (Python's `pat in s`.) -/
def listInfix (pat : List Char) : List Char → Bool
  | [] => pat.isEmpty
  | c :: t => pat.isPrefixOf (c :: t) || listInfix pat t

/-- Python's `pat in hay` on strings. -/
def strContains (hay pat : String) : Bool := listInfix pat.data hay.data

/-- One-or-more digits, greedily (`\d+`): the digit prefix and the rest;
`none` when there is no leading digit. -/
def takeDigits (l : List Char) : Option (List Char × List Char) :=
  let ds := l.takeWhile Char.isDigit
  if ds.isEmpty then none else some (ds, l.dropWhile Char.isDigit)

/-- Match of `^(version\s*=\s*)(\d+\.\d+\.\d+)(.*)$` against a single line
(which contains no newline): returns `(group1, group2, group3)` — the
`version = ` prefix, the dotted version number, and the rest of the line —
or `none` when the line does not match.  Since `.` does not match a digit
and `=` is not whitespace, the greedy `\d+` and `\s*` need no backtracking. -/
def parseVersionLine (line : List Char) : Option (List Char × List Char × List Char) :=
  if line.take 7 = ('v' :: 'e' :: 'r' :: 's' :: 'i' :: 'o' :: 'n' :: []) then
    let r1 := line.drop 7
    let ws1 := r1.takeWhile isSpace
    match r1.dropWhile isSpace with
    | '=' :: r3 =>
      let ws2 := r3.takeWhile isSpace
      let r4 := r3.dropWhile isSpace
      match takeDigits r4 with
      | some (d1, '.' :: r5) =>
        match takeDigits r5 with
        | some (d2, '.' :: r6) =>
          match takeDigits r6 with
          | some (d3, rest) =>
            some (('v' :: 'e' :: 'r' :: 's' :: 'i' :: 'o' :: 'n' :: []) ++ ws1 ++ '=' :: ws2,
                  d1 ++ '.' :: d2 ++ '.' :: d3, rest)
          | none => none
        | _ => none
      | _ => none
    | _ => none
  else none

/-- Split a character list at every `'\n'` (the lines that `^`/`$` with
`re.MULTILINE` range over; the newline separators are not part of any line). -/
def splitNl : List Char → List (List Char)
  | [] => [[]]
  | c :: cs =>
    if c = '\n' then [] :: splitNl cs
    else
      match splitNl cs with
      | l :: ls => (c :: l) :: ls
      | [] => [[c]]

/-- Rejoin lines with `'\n'` (inverse of `splitNl`). -/
def joinNl : List (List Char) → List Char
  | [] => []
  | [l] => l
  | l :: ls => l ++ '\n' :: joinNl ls

/-- The replacement a matching line undergoes in
`re.sub(pattern, f"\\g<1>{new_version}\\g<3>", content, flags=re.MULTILINE)`:
group 1, then the new version text, then group 3.  Lines that do not match
are unchanged. -/
def substVersionLine (new_version : List Char) (line : List Char) : List Char :=
  match parseVersionLine line with
  | some (g1, _, g3) => g1 ++ new_version ++ g3
  | none => line

/-- `bump_version.update_version`: search the content for the first line
matching `^(version\s*=\s*)(\d+\.\d+\.\d+)(.*)$` (`re.search` with
`re.MULTILINE`); if none matches raise `ValueError`; otherwise remember the
first match's version (`group(2)`) and replace every matching line by
`group1 + new_version + group3` (`re.sub` replaces all matches).  Returns
`(updated_content, old_version)`. -/
def update_version (content : String) (new_version : String) : Except String (String × String) :=
  let lines := splitNl content.data
  match lines.findSome? (fun ln => (parseVersionLine ln).map (fun t => t.2.1)) with
  | none => Except.error "Could not find version line in manifest.ini"
  | some old =>
      Except.ok (⟨joinNl (lines.map (substVersionLine new_version.data))⟩, ⟨old⟩)

/-- `build_addon.get_version_from_manifest`: first match of
`^version\s*=\s*(\d+\.\d+\.\d+)` with `re.MULTILINE` in the manifest text,
`ValueError` when there is none.  The pattern is the one of
`parseVersionLine` without the trailing `(.*)$` group, so a line matches one
exactly when it matches the other. -/
def get_version_from_manifest (content : String) : Except String String :=
  match (splitNl content.data).findSome? (fun ln => (parseVersionLine ln).map (fun t => t.2.1)) with
  | none => Except.error "Could not find version in manifest.ini"
  | some v => Except.ok ⟨v⟩

/-- `pathlib.PurePath.suffix` of a path's final component `name`:
`name[i:]` where `i = name.rfind('.')`, provided `0 < i < len(name) - 1`,
else the empty string. -/
def pathSuffix (p : String) : String :=
  let name := (p.data.reverse.takeWhile (fun c => c ≠ '/')).reverse
  let afterDot := name.reverse.takeWhile (fun c => c ≠ '.')
  if afterDot.length = name.length then ""
  else
    let i := name.length - afterDot.length - 1
    if 0 < i ∧ i < name.length - 1 then ⟨'.' :: afterDot.reverse⟩ else ""

/-- A filesystem entry yielded by `addon_dir.rglob('*')`:
`fullPath` is `str(file_path)` (the path including the addon directory
prefix), `relPath` is `str(file_path.relative_to(addon_dir))`, and
`isFile` is `file_path.is_file()`. -/
structure SrcFile where
  fullPath : String
  relPath : String
  isFile : Bool
  deriving DecidableEq

/-- The skip test of `build_addon.build_addon`: an entry is written to the
archive iff it is a regular file, `'__pycache__'` does not occur in
`str(file_path)`, and `file_path.suffix != '.pyc'`. -/
def keepInAddon (f : SrcFile) : Bool :=
  f.isFile && !(strContains f.fullPath ⟨'_' :: '_' :: 'p' :: 'y' :: 'c' :: 'a' :: 'c' :: 'h' :: 'e' :: '_' :: '_' :: []⟩)
    && !(pathSuffix f.fullPath = ⟨'.' :: 'p' :: 'y' :: 'c' :: []⟩)

/-- `build_addon.build_addon`: read the version from the addon's
`manifest.ini`, and produce the archive `"{plugin_name}-{version}.nvda-addon"`
whose members are the kept files, each stored under its path relative to the
addon directory.  Returns the archive name and the member arcnames in
iteration order. -/
def build_addon (plugin_name : String) (manifest : String) (files : List SrcFile) :
    Except String (String × List String) :=
  match get_version_from_manifest manifest with
  | Except.error e => Except.error e
  | Except.ok version =>
      Except.ok (plugin_name ++ "-" ++ version ++ ".nvda-addon",
        (files.filter keepInAddon).map (fun f => f.relPath))

/-! ## Part 3: powerpoint-comments worker (`powerpnt.py`) -/

/-- A slide comment as read by `_get_comments_on_current_slide`
(`comment.Text`, `comment.Author`; the datetime is irrelevant to the
announcements). -/
structure Comment where
  text : String
  author : String
  deriving DecidableEq

/-- The live COM values that PowerPoint would return to the worker at the
moment a method runs.  Every getter in `powerpnt.py` re-reads these from the
application object; nothing here is stored by the worker. -/
structure ComEnv where
  /-- `comHelper.getActiveObject("PowerPoint.Application")` succeeds. -/
  comOk : Bool
  /-- `Presentations.Count > 0`. -/
  presentationsNonzero : Bool
  /-- `ActiveWindow` is truthy. -/
  activeWindow : Bool
  /-- `window.ViewType`. -/
  viewType : Int
  /-- `window.View.Slide.SlideIndex` (1-based). -/
  slideIndex : Int
  /-- The current slide's title text (empty when there is none). -/
  slideTitle : String
  /-- `window.Presentation.Slides.Count`. -/
  slideCount : Int
  /-- The current slide's comments (`slide.Comments`). -/
  comments : List Comment
  /-- The current slide's notes text after `.strip()` (empty when none). -/
  notesText : String
  /-- `SlideShowWindows.Count > 0`. -/
  slideshowRunning : Bool
  deriving DecidableEq

/-- The fields of `PowerPointWorker.__init__` that the modelled methods read
or write (thread/queue plumbing aside). -/
structure WorkerState where
  /-- `_ppt_app` is not `None`. -/
  pptApp : Bool
  /-- `_initialized`. -/
  initialized : Bool
  /-- `_last_announced_slide` (initially `-1`). -/
  lastAnnouncedSlide : Int
  /-- `_current_window` is not `None`. -/
  currentWindow : Bool
  /-- `_from_comments_navigation`. -/
  fromCommentsNavigation : Bool
  /-- `_has_received_focus`. -/
  hasReceivedFocus : Bool
  /-- `_in_slideshow`. -/
  inSlideshow : Bool
  /-- `_slideshow_window` is not `None`. -/
  slideshowWindow : Bool
  /-- `_event_sink`/`_event_connection` are set. -/
  eventSink : Bool
  /-- `_nav_request`. -/
  navRequest : Option Int
  /-- `_read_notes_request`. -/
  readNotesRequest : Bool
  deriving DecidableEq

/-- The state after `PowerPointWorker.__init__`. -/
def initialWorkerState : WorkerState :=
  { pptApp := false, initialized := false, lastAnnouncedSlide := -1,
    currentWindow := false, fromCommentsNavigation := false,
    hasReceivedFocus := false, inSlideshow := false, slideshowWindow := false,
    eventSink := false, navRequest := none, readNotesRequest := false }

/-- `_get_window`: the stored `_current_window` if any, else
`_ppt_app.ActiveWindow` if the app handle exists, else `None`.
`true` means a window object is available. -/
def getWindow (env : ComEnv) (s : WorkerState) : Bool :=
  if s.currentWindow then true
  else if s.pptApp then env.activeWindow
  else false

/-- `_is_slideshow_running`: `SlideShowWindows.Count > 0` queried over COM;
`False` when there is no app handle (the exception path returns `False`). -/
def is_slideshow_running (env : ComEnv) (s : WorkerState) : Bool :=
  s.pptApp && env.slideshowRunning

/-- `_has_active_presentation`. -/
def has_active_presentation (env : ComEnv) (s : WorkerState) : Bool :=
  s.pptApp && env.presentationsNonzero && env.activeWindow

/-- `_get_current_slide_index`: the live slide index, `-1` when no window. -/
def get_current_slide_index (env : ComEnv) (s : WorkerState) : Int :=
  if getWindow env s then env.slideIndex else -1

/-- `_get_slide_title`: the live title, `""` when no window. -/
def get_slide_title (env : ComEnv) (s : WorkerState) : String :=
  if getWindow env s then env.slideTitle else ""

/-- `_get_slide_notes`: during a slideshow (with a stored slideshow window)
read the notes through the slideshow window, else through the normal window;
`""` when neither is available. -/
def get_slide_notes (env : ComEnv) (s : WorkerState) : String :=
  if s.inSlideshow && s.slideshowWindow then env.notesText
  else if getWindow env s then env.notesText else ""

/-- `_get_comments_on_current_slide`: the live comment list, `[]` when no
window. -/
def get_comments_on_current_slide (env : ComEnv) (s : WorkerState) : List Comment :=
  if getWindow env s then env.comments else []

/-- `_has_meeting_notes`: the notes are nonempty and contain `'****'`. -/
def has_meeting_notes (env : ComEnv) (s : WorkerState) : Bool :=
  let notes := get_slide_notes env s
  if notes = "" then false
  else strContains notes ⟨'*' :: '*' :: '*' :: '*' :: []⟩

/-- `PP_VIEW_NORMAL`. -/
def PP_VIEW_NORMAL : Int := 9

/-- `_ensure_normal_view`: when a window is available and its view type is not
Normal, switch to Normal view and announce it.  Returns the announcements (the
view-type write is an external COM effect). -/
def ensure_normal_view (env : ComEnv) (s : WorkerState) : List String :=
  match (if getWindow env s then some env.viewType else none) with
  | some v =>
      if v ≠ PP_VIEW_NORMAL then
        if getWindow env s then ["Switched to Normal view"] else []
      else []
  | none => []

/-- The slide announcement block of `_announce_slide_comments` (v0.0.50): when
the slide index is positive, `"{slide_index}: {slide_title}"` if the slide has
a title, else `"Slide {slide_index}"`. -/
def slide_title_message (idx : Int) (title : String) : List String :=
  if idx > 0 then
    if title ≠ "" then [toString idx ++ ": " ++ title]
    else ["Slide " ++ toString idx]
  else []

/-- The comment-count announcement block of `_announce_slide_comments`:
`"No comments"` for an empty list, else
`"Has {count} comment{'s' if count != 1 else ''}"`. -/
def comment_count_message (comments : List Comment) : List String :=
  if comments.isEmpty then ["No comments"]
  else ["Has " ++ toString comments.length ++ " comment" ++
          (if comments.length ≠ 1 then "s" else "")]

/-- `_announce_slide_comments`: re-check the slideshow state over COM and fix
the `_in_slideshow` flag; in a slideshow announce nothing.  Otherwise announce
the slide number/title when navigation came from the Comments pane (resetting
that flag), then the comment count ("No comments" / "Has N comment(s)"), and
finally "has notes" when the notes carry `'****'` markers.  Returns the new
state and the announcements in order.  (`_open_comments_pane` performs COM
actions but produces no announcement.) -/
def announce_slide_comments (env : ComEnv) (s : WorkerState) : WorkerState × List String :=
  let actually := is_slideshow_running env s
  let s :=
    if actually ≠ s.inSlideshow then
      { s with inSlideshow := actually,
               slideshowWindow := if actually then s.slideshowWindow else false }
    else s
  if actually then (s, [])
  else
    let (s, titleMsgs) :=
      if s.fromCommentsNavigation then
        ({ s with fromCommentsNavigation := false },
         slide_title_message (get_current_slide_index env s) (get_slide_title env s))
      else (s, [])
    let countMsgs := comment_count_message (get_comments_on_current_slide env s)
    let notesMsgs := if has_meeting_notes env s then ["has notes"] else []
    (s, titleMsgs ++ countMsgs ++ notesMsgs)

/-- `on_slide_changed_event`: store the event's window (else fall back to
`ActiveWindow`), ignore a duplicate slide index, otherwise record the index,
ensure Normal view and announce the slide's comments. -/
def on_slide_changed_event (env : ComEnv) (slide_index : Int) (windowGiven : Bool)
    (s : WorkerState) : WorkerState × List String :=
  let s :=
    if windowGiven then { s with currentWindow := true }
    else if ¬ s.currentWindow ∧ s.pptApp then { s with currentWindow := env.activeWindow }
    else s
  if slide_index = s.lastAnnouncedSlide then (s, [])
  else
    let s := { s with lastAnnouncedSlide := slide_index }
    let viewMsgs := ensure_normal_view env s
    let (s, msgs) := announce_slide_comments env s
    (s, viewMsgs ++ msgs)

/-- `_check_initial_slide`: read the current slide index; bail out when it is
not positive, when the app has not received focus yet, or when it equals the
last announced slide; otherwise record it and announce the slide's comments. -/
def check_initial_slide (env : ComEnv) (s : WorkerState) : WorkerState × List String :=
  let idx := get_current_slide_index env s
  if idx ≤ 0 then (s, [])
  else if ¬ s.hasReceivedFocus then (s, [])
  else if idx = s.lastAnnouncedSlide then (s, [])
  else announce_slide_comments env { s with lastAnnouncedSlide := idx }

/-- An observable step of `_initialize_com`, in order: the advise connection
(`_connect_events`, v0.0.21 `_AdviseConnection` on the event sink), or an
announcement queued to NVDA. -/
inductive WorkerEvent where
  | connectEvents
  | announce (msg : String)
  deriving DecidableEq

/-- `_initialize_com`: obtain the PowerPoint application object; on failure
clear the handle and `_initialized`.  With the app obtained, when an active
presentation exists: ensure Normal view, connect the event sink, check (and
possibly announce) the initial slide, then set `_initialized`; otherwise just
clear `_initialized`. -/
def initialize_com (env : ComEnv) (s : WorkerState) : WorkerState × List WorkerEvent :=
  if ¬ env.comOk then ({ s with pptApp := false, initialized := false }, [])
  else
    let s := { s with pptApp := true }
    if has_active_presentation env s then
      let viewMsgs := ensure_normal_view env s
      let s := { s with eventSink := true }
      let (s, initMsgs) := check_initial_slide env s
      let s := { s with initialized := true }
      (s, viewMsgs.map WorkerEvent.announce ++
            WorkerEvent.connectEvents :: initMsgs.map WorkerEvent.announce)
    else ({ s with initialized := false }, [])

/-- `_navigate_slide`: with no window available announce failure; otherwise
compute `new_index = current + direction` and either announce the boundary
("First slide"/"Last slide", returning `False` without navigating) or call
`GotoSlide(new_index)` and return `True`.  The first component records the
argument of the `GotoSlide` call, when one is made. -/
def navigate_slide (env : ComEnv) (s : WorkerState) (direction : Int) :
    Option Int × List String × Bool :=
  if ¬ getWindow env s then (none, ["Cannot navigate - no active presentation"], false)
  else
    let new_index := env.slideIndex + direction
    if new_index < 1 then (none, ["First slide"], false)
    else if new_index > env.slideCount then (none, ["Last slide"], false)
    else (some new_index, [], true)

/-- The COM-object handles held by the worker (`_ppt_app`, `_current_window`,
`_event_sink`/`_event_connection`, `_slideshow_window`) — the state the
specification's data-model section says is all the worker keeps. -/
def comHandleFields (s : WorkerState) : Bool × Bool × Bool × Bool :=
  (s.pptApp, s.currentWindow, s.eventSink, s.slideshowWindow)

/-! ## Part 4: `_clean_notes_text` (the marker regex of `powerpnt.py`)

`_clean_notes_text` runs
`re.search(r'\*{4,}\s*(.*?)\s*\*{4,}', notes, re.DOTALL)` and keeps the
group; if there is no match it falls back to `re.sub(r'\*{4,}\s*', '', notes)`;
then it removes `</?meeting\s*notes>` and `</?critical\s*notes>`
case-insensitively, collapses `\s+` to a single space, and strips.

The search is embedded operationally: `re.search` tries every start
position from the left (`marker_search`); at a start position the greedy
`\*{4,}` first consumes the whole asterisk run and backtracks one asterisk
at a time (`matchGreedy`); after it, the greedy inner `\s*` never needs to
backtrack (giving characters back would put a whitespace character where
`.*?`'s continuation `\s*\*{4,}` restarts, and both a shorter `\s*` and the
lazy `.*?` re-try the same continuation, which `matchGreedy`'s call of
`lazySplit` on `dropWs` accounts for); the lazy `(.*?)` grows one character
at a time (`lazySplit`), and its continuation `\s*\*{4,}` matches at a
position iff after dropping the maximal whitespace run four asterisks
follow (a shorter `\s*` would leave a whitespace character under `\*`). -/

/-- Four consecutive asterisks at the head (`\*{4,}` can start here). -/
def star4 (l : List Char) : Bool := l.take 4 = ('*' :: '*' :: '*' :: '*' :: [])

/-- Length of the maximal asterisk run at the head. -/
def starRun (l : List Char) : Nat := (l.takeWhile (fun c => c = '*')).length

/-- The lazy `(.*?)` followed by `\s*\*{4,}`: the shortest prefix (the group)
whose continuation matches, `none` when no continuation position works. -/
def lazySplit : List Char → Option (List Char)
  | [] => if star4 (dropWs []) then some [] else none
  | c :: cs =>
      if star4 (dropWs (c :: cs)) then some []
      else (lazySplit cs).map (fun g => c :: g)

/-- Greedy `\*{4,}` at a start position: try consuming `fuel` asterisks, then
match `\s*(.*?)\s*\*{4,}` on the rest; on failure backtrack to one asterisk
fewer, failing below four. -/
def matchGreedy (l : List Char) : Nat → Option (List Char)
  | 0 => none
  | n + 1 =>
      if n + 1 < 4 then none
      else
        match lazySplit (dropWs (l.drop (n + 1))) with
        | some g => some g
        | none => matchGreedy l n

/-- `re.search` of `\*{4,}\s*(.*?)\s*\*{4,}`: try each start position from the
left; a position can start a match only if four asterisks begin there. -/
def marker_search : List Char → Option (List Char)
  | [] => none
  | c :: cs =>
      if star4 (c :: cs) then
        match matchGreedy (c :: cs) (starRun (c :: cs)) with
        | some g => some g
        | none => marker_search cs
      else marker_search cs

/-- `re.sub(r'\*{4,}\s*', '', s)` (the fallback branch): delete every
leftmost occurrence of an asterisk run of four or more followed by
whitespace.  Fuelled structurally; one list element is consumed per step, so
`fuel = length` always suffices. -/
def removeMarkersF : Nat → List Char → List Char
  | 0, l => l
  | _ + 1, [] => []
  | fuel + 1, c :: cs =>
      if star4 (c :: cs) then
        removeMarkersF fuel (dropWs ((c :: cs).drop (starRun (c :: cs))))
      else c :: removeMarkersF fuel cs

/-- `re.sub(r'\*{4,}\s*', '', s)`. -/
def removeMarkers (l : List Char) : List Char := removeMarkersF l.length l

/-- Case-insensitive literal match (`re.IGNORECASE` on a lowercase pattern):
strip `pat` from the head of `l`, comparing each character lowercased. -/
def stripCI : List Char → List Char → Option (List Char)
  | [], l => some l
  | _ :: _, [] => none
  | p :: ps, c :: cs => if c.toLower = p then stripCI ps cs else none

/-- The optional `/?` after `<`: consume a leading slash when present (the
pattern continues with a letter of `w1`, never `/`, so no backtracking). -/
def tagSlash (t : List Char) : List Char :=
  match t with
  | [] => t
  | c2 :: t2 => if c2 = '/' then t2 else t

/-- The `{w1}\s*{w2}>` tail of the tag pattern, matched case-insensitively at
the head: `w1`, then greedy `\s*` (no backtracking: `w2` never starts with a
whitespace character), then `w2`, then `>`. -/
def tagBody (w1 w2 : List Char) (t1 : List Char) : Option (List Char) :=
  match stripCI w1 t1 with
  | none => none
  | some r =>
      match stripCI w2 (dropWs r) with
      | none => none
      | some t3 =>
          match t3 with
          | [] => none
          | c3 :: rest => if c3 = '>' then some rest else none

/-- Match `</?{w1}\s*{w2}>` (case-insensitively, `re.IGNORECASE`) at the head
of `l`; returns the input after the tag. -/
def tagAt (w1 w2 : List Char) (l : List Char) : Option (List Char) :=
  match l with
  | [] => none
  | c :: t => if c = '<' then tagBody w1 w2 (tagSlash t) else none

/-- `re.sub(r'</?{w1}\s*{w2}>', '', s, flags=re.IGNORECASE)`: scan from the
left, deleting every leftmost tag occurrence.  Fuelled structurally; every
step consumes at least one character. -/
def removeTagF (w1 w2 : List Char) : Nat → List Char → List Char
  | 0, l => l
  | _ + 1, [] => []
  | fuel + 1, c :: cs =>
      match tagAt w1 w2 (c :: cs) with
      | some rest => removeTagF w1 w2 fuel rest
      | none => c :: removeTagF w1 w2 fuel cs

/-- `re.sub(r'</?{w1}\s*{w2}>', '', s, flags=re.IGNORECASE)`. -/
def removeTag (w1 w2 : List Char) (l : List Char) : List Char :=
  removeTagF w1 w2 l.length l

/-- `re.sub(r'\s+', ' ', s)`: collapse every whitespace run to one space.
Fuelled structurally; every step consumes at least one character. -/
def collapseWsF : Nat → List Char → List Char
  | 0, l => l
  | _ + 1, [] => []
  | fuel + 1, c :: cs =>
      if isSpace c then ' ' :: collapseWsF fuel (dropWs cs)
      else c :: collapseWsF fuel cs

/-- `re.sub(r'\s+', ' ', s)`. -/
def collapseWs (l : List Char) : List Char := collapseWsF l.length l

/-- Drop the maximal whitespace run at the end. -/
def trailStrip (l : List Char) : List Char := (l.reverse.dropWhile isSpace).reverse

/-- Python `str.strip()` on the cleaned notes (ASCII whitespace). -/
def stripWs (l : List Char) : List Char := dropWs (trailStrip l)

/-- The word `meeting`. -/
def meetingChars : List Char := ('m' :: 'e' :: 'e' :: 't' :: 'i' :: 'n' :: 'g' :: [])

/-- The word `critical`. -/
def criticalChars : List Char := ('c' :: 'r' :: 'i' :: 't' :: 'i' :: 'c' :: 'a' :: 'l' :: [])

/-- The word `notes`. -/
def notesChars : List Char := ('n' :: 'o' :: 't' :: 'e' :: 's' :: [])

/-- The tag-removal, whitespace-collapse and strip pipeline that
`_clean_notes_text` applies after extracting the marker group. -/
def postClean (l : List Char) : List Char :=
  stripWs (collapseWs (removeTag criticalChars notesChars (removeTag meetingChars notesChars l)))

/-- `PowerPointWorker._clean_notes_text`. -/
def clean_notes_text (notes : String) : String :=
  if notes = "" then notes
  else
    let base :=
      match marker_search notes.data with
      | some g => g
      | none => removeMarkers notes.data
    ⟨postClean base⟩

/-! ### The specification-side description of `_clean_notes_text` (claim C8) -/

/-- Index of the first position where four consecutive asterisks begin. -/
def findStars4 : List Char → Option Nat
  | [] => none
  | c :: cs => if star4 (c :: cs) then some 0 else (findStars4 cs).map (fun i => i + 1)

/-- Following the claim's words: the text strictly between the first run of
four or more asterisks and the next such run (the nearest one), when the
notes contain at least two such runs. -/
def betweenRuns (l : List Char) : Option (List Char) :=
  match findStars4 l with
  | none => none
  | some i =>
      let afterFirst := (l.drop i).drop (starRun (l.drop i))
      match findStars4 afterFirst with
      | none => none
      | some j => some (afterFirst.take j)

/-- The claim's precondition: the notes contain at least two runs of four or
more asterisks. -/
def hasTwoRuns (notes : String) : Bool := (betweenRuns notes.data).isSome

/-- Reading of the claim with the tag whitespace flexible (the amended claim):
text between the first marker run and the next, tags
`</?meeting\s*notes>`, `</?critical\s*notes>` removed case-insensitively,
whitespace collapsed, stripped. -/
def clean_notes_spec (notes : String) : String :=
  match betweenRuns notes.data with
  | some mid => ⟨postClean mid⟩
  | none => ""

/-- Strip any of the four literal tags `<meeting notes>`, `</meeting notes>`,
`<critical notes>`, `</critical notes>` (case-insensitively) at the head. -/
def stripAnyLiteralTag (l : List Char) : Option (List Char) :=
  match stripCI (('<' :: []) ++ meetingChars ++ ' ' :: notesChars ++ '>' :: []) l with
  | some r => some r
  | none =>
      match stripCI (('<' :: '/' :: []) ++ meetingChars ++ ' ' :: notesChars ++ '>' :: []) l with
      | some r => some r
      | none =>
          match stripCI (('<' :: []) ++ criticalChars ++ ' ' :: notesChars ++ '>' :: []) l with
          | some r => some r
          | none =>
              stripCI (('<' :: '/' :: []) ++ criticalChars ++ ' ' :: notesChars ++ '>' :: []) l

/-- Remove every occurrence of the four literal tags, case-insensitively
(fuelled structurally; each step consumes at least one character). -/
def removeLiteralTagsF : Nat → List Char → List Char
  | 0, l => l
  | _ + 1, [] => []
  | fuel + 1, c :: cs =>
      match stripAnyLiteralTag (c :: cs) with
      | some rest => removeLiteralTagsF fuel rest
      | none => c :: removeLiteralTagsF fuel cs

/-- Remove every occurrence of the four literal tags, case-insensitively. -/
def removeLiteralTags (l : List Char) : List Char := removeLiteralTagsF l.length l

/-- The claim C8 exactly as stated: the tags removed are the literal strings
`"<meeting notes>"`, `"</meeting notes>"`, `"<critical notes>"`,
`"</critical notes>"` (case-insensitively), i.e. with a single space between
the words. -/
def clean_notes_claim_literal (notes : String) : String :=
  match betweenRuns notes.data with
  | some mid => ⟨stripWs (collapseWs (removeLiteralTags mid))⟩
  | none => ""

/-! ## Theorems -/

/-! ### Claims C1, C2, C10 (windows-dictation-silence) -/

/-- C1: entering voice typing mode and then processing any gesture is a round
trip on the speech mode: `_start_voice_typing_mode` saves the current speech
mode in `_previous_speech_mode` and sets the mode to off; for every gesture
processed while `_voice_typing_active` is true, `_gesture_filter` calls
`_end_voice_typing_mode`, which restores exactly the saved speech mode, resets
`_previous_speech_mode` to `None`, clears `_voice_typing_active` and removes
the gesture filter — so after the first filtered keypress the speech mode
equals the mode that held before activation. -/
theorem claim_C1 (s : DictationState) (g : Gesture) :
    ((start_voice_typing_mode s).previous_speech_mode = some s.speechMode ∧
     (start_voice_typing_mode s).speechMode = SpeechMode.off ∧
     (start_voice_typing_mode s).voice_typing_active = true) ∧
    (∀ s2 : DictationState, s2.voice_typing_active = true →
       gesture_filter s2 g = (end_voice_typing_mode s2, true)) ∧
    ((gesture_filter (start_voice_typing_mode s) g).1.speechMode = s.speechMode ∧
     (gesture_filter (start_voice_typing_mode s) g).1.previous_speech_mode = none ∧
     (gesture_filter (start_voice_typing_mode s) g).1.voice_typing_active = false ∧
     (gesture_filter (start_voice_typing_mode s) g).1.gesture_filter_installed = false) := by
  refine ⟨?_, ?_, ?_⟩
  · cases h : s.gesture_filter_installed <;>
      simp [start_voice_typing_mode, install_gesture_filter, h]
  · intro s2 h2
    simp [gesture_filter, h2]
  · cases h : s.gesture_filter_installed <;>
      simp [start_voice_typing_mode, install_gesture_filter, gesture_filter,
        end_voice_typing_mode, remove_gesture_filter, h]

/-- Witness for C1: the filter hypothesis discharged at a concrete active
state. -/
theorem claim_C1_witness :
    gesture_filter ⟨some SpeechMode.talk, true, true, SpeechMode.off⟩ ⟨[]⟩
      = (end_voice_typing_mode ⟨some SpeechMode.talk, true, true, SpeechMode.off⟩, true) :=
  (claim_C1 ⟨some SpeechMode.talk, true, true, SpeechMode.off⟩ ⟨[]⟩).2.1
    ⟨some SpeechMode.talk, true, true, SpeechMode.off⟩ rfl

/-- C2 is false as stated: when Win+H is processed while `_voice_typing_active`
is true, the filter first ends voice typing mode, so `script_toggleVoiceTyping`
then sees the inactive state and re-enters voice typing mode — the plugin ends
ACTIVE, with the filter installed and speech off, not in the inactive state
with the saved mode restored. -/
theorem claim_C2_counterexample :
    ¬ ((script_toggleVoiceTyping
          ((gesture_filter ⟨some SpeechMode.talk, true, true, SpeechMode.off⟩ ⟨[]⟩).1)
          ⟨[]⟩).voice_typing_active = false ∧
       (script_toggleVoiceTyping
          ((gesture_filter ⟨some SpeechMode.talk, true, true, SpeechMode.off⟩ ⟨[]⟩).1)
          ⟨[]⟩).gesture_filter_installed = false ∧
       (script_toggleVoiceTyping
          ((gesture_filter ⟨some SpeechMode.talk, true, true, SpeechMode.off⟩ ⟨[]⟩).1)
          ⟨[]⟩).speechMode = SpeechMode.talk) := by
  decide

/-- C2 (amended): when a Win+H input is processed while `_voice_typing_active`
is true (filter first, then `script_toggleVoiceTyping`), the filter ends voice
typing mode — restoring the saved speech mode, uninstalling the filter — and
the script then re-enters voice typing mode, so the plugin ends in the ACTIVE
state: `_voice_typing_active` true, the gesture filter installed, the speech
mode off, and `_previous_speech_mode` again holding the mode that was saved
when voice typing mode was first entered. -/
theorem claim_C2 (s : DictationState) (g : Gesture) (m : SpeechMode)
    (hact : s.voice_typing_active = true) (hprev : s.previous_speech_mode = some m) :
    ((gesture_filter s g).1.voice_typing_active = false ∧
     (gesture_filter s g).1.gesture_filter_installed = false ∧
     (gesture_filter s g).1.speechMode = m) ∧
    ((script_toggleVoiceTyping (gesture_filter s g).1 g).voice_typing_active = true ∧
     (script_toggleVoiceTyping (gesture_filter s g).1 g).gesture_filter_installed = true ∧
     (script_toggleVoiceTyping (gesture_filter s g).1 g).speechMode = SpeechMode.off ∧
     (script_toggleVoiceTyping (gesture_filter s g).1 g).previous_speech_mode = some m) := by
  cases hinst : s.gesture_filter_installed <;>
    simp [gesture_filter, end_voice_typing_mode, remove_gesture_filter,
      script_toggleVoiceTyping, start_voice_typing_mode, install_gesture_filter,
      hact, hprev, hinst]

/-- Witness for C2 (amended), at a concrete active state with saved mode
`talk`. -/
theorem claim_C2_witness :
    ((gesture_filter ⟨some SpeechMode.talk, true, true, SpeechMode.off⟩ ⟨[]⟩).1.voice_typing_active = false ∧
     (gesture_filter ⟨some SpeechMode.talk, true, true, SpeechMode.off⟩ ⟨[]⟩).1.gesture_filter_installed = false ∧
     (gesture_filter ⟨some SpeechMode.talk, true, true, SpeechMode.off⟩ ⟨[]⟩).1.speechMode = SpeechMode.talk) ∧
    ((script_toggleVoiceTyping (gesture_filter ⟨some SpeechMode.talk, true, true, SpeechMode.off⟩ ⟨[]⟩).1 ⟨[]⟩).voice_typing_active = true ∧
     (script_toggleVoiceTyping (gesture_filter ⟨some SpeechMode.talk, true, true, SpeechMode.off⟩ ⟨[]⟩).1 ⟨[]⟩).gesture_filter_installed = true ∧
     (script_toggleVoiceTyping (gesture_filter ⟨some SpeechMode.talk, true, true, SpeechMode.off⟩ ⟨[]⟩).1 ⟨[]⟩).speechMode = SpeechMode.off ∧
     (script_toggleVoiceTyping (gesture_filter ⟨some SpeechMode.talk, true, true, SpeechMode.off⟩ ⟨[]⟩).1 ⟨[]⟩).previous_speech_mode = some SpeechMode.talk) :=
  claim_C2 ⟨some SpeechMode.talk, true, true, SpeechMode.off⟩ ⟨[]⟩ SpeechMode.talk rfl rfl

/-- C10: the gesture filter never blocks input — for every gesture and every
plugin state, `_gesture_filter` returns `True`, so no keypress is suppressed
by the plugin. -/
theorem claim_C10 (s : DictationState) (g : Gesture) :
    (gesture_filter s g).2 = true := by
  unfold gesture_filter
  split <;> rfl

/-! ### Claims C5, C6 (build tools) -/

/-- `List.findSome?` returns the value of the first element on which `f`
succeeds: there is an index whose element succeeds with that value while every
earlier element fails. -/
theorem findSome?_first {α β : Type} (f : α → Option β) (l : List α) (b : β)
    (h : l.findSome? f = some b) :
    ∃ (i : Nat) (a : α), l[i]? = some a ∧ f a = some b ∧
      ∀ (j : Nat), j < i → ∀ a', l[j]? = some a' → f a' = none := by
  induction l with
  | nil => simp [List.findSome?] at h
  | cons x xs ih =>
    rw [List.findSome?_cons] at h
    cases hx : f x with
    | some b' =>
      rw [hx] at h
      refine ⟨0, x, by simp, ?_, ?_⟩
      · cases h; exact hx
      · intro j hj a' _; omega
    | none =>
      rw [hx] at h
      obtain ⟨i, a, hget, hfa, hmin⟩ := ih h
      refine ⟨i + 1, a, by simpa using hget, hfa, ?_⟩
      intro j hj a' hget'
      cases j with
      | zero => simp at hget'; cases hget'; exact hx
      | succ j' =>
        simp at hget'
        exact hmin j' (by omega) a' hget'

/-- C5 is false as stated: with two `version = X.X.X` lines in the content,
`re.sub` replaces the version number on BOTH lines, so characters outside "the
version number" (the second line's number) change as well, while the claim
demands every other character unchanged. -/
theorem claim_C5_counterexample :
    update_version ("version = 1.0.0\nversion = 2.0.0") ("9.9.9")
      = Except.ok (("version = 9.9.9\nversion = 9.9.9"), ("1.0.0")) ∧
    ("version = 9.9.9\nversion = 9.9.9" : String) ≠ "version = 9.9.9\nversion = 2.0.0" := by
  constructor
  · rfl
  · decide

/-- C5 (amended): `update_version` replaces the version number by the new
version on EVERY line matching `version = X.X.X` (each such line becoming its
`version = ` prefix, the new version, and the rest of the line; all other
lines unchanged), returns the old version taken from the FIRST matching line,
and raises `ValueError` exactly when no line matches. -/
theorem claim_C5 (content new_version : String) :
    (update_version content new_version
        = Except.error "Could not find version line in manifest.ini"
      ↔ ∀ ln ∈ splitNl content.data, parseVersionLine ln = none) ∧
    (∀ u old, update_version content new_version = Except.ok (u, old) →
      u.data = joinNl ((splitNl content.data).map (substVersionLine new_version.data)) ∧
      ∃ (i : Nat) (ln : List Char), (splitNl content.data)[i]? = some ln ∧
        (parseVersionLine ln).map (fun t => t.2.1) = some old.data ∧
        ∀ (j : Nat), j < i → ∀ ln', (splitNl content.data)[j]? = some ln' →
          parseVersionLine ln' = none) := by
  cases hf : (splitNl content.data).findSome?
      (fun ln => (parseVersionLine ln).map (fun t => t.2.1)) with
  | none =>
    have hu : update_version content new_version
        = Except.error "Could not find version line in manifest.ini" := by
      simp only [update_version, hf]
    have hall : ∀ ln ∈ splitNl content.data, parseVersionLine ln = none := by
      rw [List.findSome?_eq_none_iff] at hf
      intro ln hln
      have := hf ln hln
      simpa using this
    refine ⟨⟨fun _ => hall, fun _ => hu⟩, ?_⟩
    intro u old h
    rw [hu] at h
    cases h
  | some o =>
    have hu : update_version content new_version
        = Except.ok (⟨joinNl ((splitNl content.data).map (substVersionLine new_version.data))⟩,
            ⟨o⟩) := by
      simp only [update_version, hf]
    constructor
    · rw [hu]
      simp only [reduceCtorEq, false_iff]
      intro hall
      obtain ⟨a, ha, hfa⟩ := List.exists_of_findSome?_eq_some hf
      rw [hall a ha] at hfa
      simp at hfa
    · intro u old h
      rw [hu] at h
      cases h
      refine ⟨rfl, ?_⟩
      obtain ⟨i, a, hget, hfa2, hmin⟩ := findSome?_first _ _ _ hf
      exact ⟨i, a, hget, hfa2, fun j hj ln' hln' => by simpa using hmin j hj ln' hln'⟩

/-- Witness for C5 (amended): at a concrete two-line manifest. -/
theorem claim_C5_witness :
    ("version = 2.0.0\nrest" : String).data
        = joinNl ((splitNl ("version = 1.2.3\nrest" : String).data).map
            (substVersionLine ("2.0.0" : String).data)) ∧
    ∃ (i : Nat) (ln : List Char), (splitNl ("version = 1.2.3\nrest" : String).data)[i]? = some ln ∧
      (parseVersionLine ln).map (fun t => t.2.1) = some ("1.2.3" : String).data ∧
      ∀ (j : Nat), j < i → ∀ ln', (splitNl ("version = 1.2.3\nrest" : String).data)[j]? = some ln' →
        parseVersionLine ln' = none :=
  (claim_C5 ("version = 1.2.3\nrest") ("2.0.0")).2 ("version = 2.0.0\nrest") ("1.2.3") rfl

/-- C6: `build_addon` names the archive `{plugin_name}-{version}.nvda-addon`
with the version read from the manifest, and the archive contains exactly the
regular files under the addon directory whose path does not contain
`__pycache__` and whose suffix is not `.pyc`, each stored under its path
relative to the addon directory. -/
theorem claim_C6 (plugin manifest : String) (files : List SrcFile) (v : String)
    (hv : get_version_from_manifest manifest = Except.ok v) :
    ∃ arc, build_addon plugin manifest files
        = Except.ok (plugin ++ "-" ++ v ++ ".nvda-addon", arc) ∧
      ∀ p, p ∈ arc ↔ ∃ f, f ∈ files ∧ f.isFile = true ∧
        strContains f.fullPath ("__pycache__") = false ∧
        pathSuffix f.fullPath ≠ ".pyc" ∧ f.relPath = p := by
  refine ⟨(files.filter keepInAddon).map (fun f => f.relPath), ?_, ?_⟩
  · unfold build_addon
    rw [hv]
  · intro p
    simp only [List.mem_map, List.mem_filter]
    constructor
    · rintro ⟨f, ⟨hmem, hkeep⟩, hrel⟩
      refine ⟨f, hmem, ?_, ?_, ?_, hrel⟩ <;>
        · unfold keepInAddon at hkeep
          simp only [Bool.and_eq_true, Bool.not_eq_true', decide_eq_true_eq,
            Bool.not_eq_true, decide_eq_false_iff_not] at hkeep
          tauto
    · rintro ⟨f, hmem, hfile, hpyc, hsuf, hrel⟩
      refine ⟨f, ⟨hmem, ?_⟩, hrel⟩
      unfold keepInAddon
      simp only [Bool.and_eq_true, Bool.not_eq_true', decide_eq_true_eq,
        Bool.not_eq_true, decide_eq_false_iff_not]
      exact ⟨⟨hfile, hpyc⟩, hsuf⟩

/-- Witness for C6: a concrete manifest and file list. -/
theorem claim_C6_witness :
    ∃ arc, build_addon ("powerpoint-comments") ("version = 0.0.1\n")
        [⟨"addon/manifest.ini", "manifest.ini", true⟩,
         ⟨"addon/__pycache__/x.py", "__pycache__/x.py", true⟩,
         ⟨"addon/a.pyc", "a.pyc", true⟩,
         ⟨"addon/sub", "sub", false⟩]
        = Except.ok ("powerpoint-comments" ++ "-" ++ "0.0.1" ++ ".nvda-addon", arc) ∧
      ∀ p, p ∈ arc ↔ ∃ f, f ∈ [(⟨"addon/manifest.ini", "manifest.ini", true⟩ : SrcFile),
         ⟨"addon/__pycache__/x.py", "__pycache__/x.py", true⟩,
         ⟨"addon/a.pyc", "a.pyc", true⟩,
         ⟨"addon/sub", "sub", false⟩] ∧ f.isFile = true ∧
        strContains f.fullPath ("__pycache__") = false ∧
        pathSuffix f.fullPath ≠ ".pyc" ∧ f.relPath = p :=
  claim_C6 ("powerpoint-comments") ("version = 0.0.1\n") _ ("0.0.1") rfl

/-! ### Claims C3, C4, C7, C9 (powerpoint-comments) -/

/-- Strings with equal character data are equal. -/
theorem str_ext {a b : String} (h : a.data = b.data) : a = b := congrArg String.mk h

/-- The head of an appended string is the head of its nonempty left part. -/
theorem head?_append_left (x y : String) (c : Char) (h : x.data.head? = some c) :
    (x ++ y).data.head? = some c := by
  rw [String.data_append, List.head?_append, h]
  rfl

/-- Strings with distinct head characters differ. -/
theorem head_ne {a s : String} {c : Char} (h : a.data.head? = some c)
    (h2 : ¬ s.data.head? = some c) : a ≠ s := fun he => h2 (he ▸ h)

/-- A `"{index}: {title}"` message contains a colon, so it differs from every
colon-free string. -/
theorem colon_msg_ne (a b s : String) (hs : (':') ∉ s.data) : a ++ ": " ++ b ≠ s := by
  intro h
  apply hs
  rw [← h, String.data_append, String.data_append]
  exact List.mem_append_left _ (List.mem_append_right _ (by decide))

/-- Appending the plural `s` to `... comment`. -/
theorem comment_plural (t : String) : t ++ " comment" ++ "s" = t ++ " comments" := by
  apply str_ext
  rw [String.data_append, String.data_append, String.data_append]
  simp

/-- No slide-title message equals a colon-free string that does not start
with `S`. -/
theorem not_mem_slide_title_message (idx : Int) (title : String) (s : String)
    (hs1 : (':') ∉ s.data) (hs2 : ¬ s.data.head? = some 'S') :
    s ∉ slide_title_message idx title := by
  intro hmem
  unfold slide_title_message at hmem
  split at hmem
  · split at hmem
    · rw [List.mem_singleton] at hmem
      exact colon_msg_ne _ _ s hs1 hmem.symm
    · rw [List.mem_singleton] at hmem
      exact head_ne (head?_append_left ("Slide ") _ 'S' rfl) hs2 hmem.symm
  · simp at hmem

/-- The comment-count message for an empty comment list. -/
theorem comment_count_message_nil : comment_count_message [] = ["No comments"] := rfl

/-- The comment-count message for a nonempty comment list. -/
theorem comment_count_message_cons (l : List Comment) (h : l ≠ []) :
    comment_count_message l
      = ["Has " ++ toString l.length ++ " comment" ++ (if l.length ≠ 1 then "s" else "")] := by
  unfold comment_count_message
  rw [if_neg]
  simp [h]

/-- `"No comments"` is not announced for a nonempty comment list. -/
theorem no_comments_not_mem_count (l : List Comment) (h : l ≠ []) :
    ("No comments" : String) ∉ comment_count_message l := by
  rw [comment_count_message_cons l h, List.mem_singleton]
  intro he
  exact head_ne (head?_append_left _ _ 'H'
    (head?_append_left _ _ 'H' (head?_append_left ("Has ") _ 'H' rfl))) (by decide) he.symm

/-- `"has notes"` is never a comment-count message. -/
theorem has_notes_not_mem_count (l : List Comment) :
    ("has notes" : String) ∉ comment_count_message l := by
  rcases List.eq_nil_or_concat l with h | ⟨l2, a, rfl⟩
  · rw [h, comment_count_message_nil, List.mem_singleton]
    decide
  · rw [comment_count_message_cons _ (by simp), List.mem_singleton]
    intro he
    exact head_ne (head?_append_left _ _ 'H'
      (head?_append_left _ _ 'H' (head?_append_left ("Has ") _ 'H' rfl))) (by decide) he.symm

/-- C3: for every slide-change event processed while no slideshow is running
(and a window available), `_announce_slide_comments` announces "No comments"
exactly when the slide has zero comments, otherwise "Has N comments" with the
trailing "s" exactly when N is not 1, and additionally announces "has notes"
exactly when the slide's notes text contains the substring "****"; while a
slideshow is running it announces nothing. -/
theorem claim_C3 (env : ComEnv) (s : WorkerState)
    (hp : s.pptApp = true) (hw : getWindow env s = true) :
    (env.slideshowRunning = true → (announce_slide_comments env s).2 = []) ∧
    (env.slideshowRunning = false →
      (("No comments" ∈ (announce_slide_comments env s).2) ↔ env.comments = []) ∧
      (env.comments.length = 1 →
        ("Has 1 comment" ∈ (announce_slide_comments env s).2) ∧
        ¬ ("Has 1 comments" ∈ (announce_slide_comments env s).2)) ∧
      (env.comments ≠ [] → env.comments.length ≠ 1 →
        ("Has " ++ toString env.comments.length ++ " comments")
          ∈ (announce_slide_comments env s).2) ∧
      (("has notes" ∈ (announce_slide_comments env s).2)
        ↔ strContains env.notesText ("****") = true)) := by
  constructor
  · intro hrun
    simp [announce_slide_comments, is_slideshow_running, hp, hrun]
  · intro hrun
    have key : (announce_slide_comments env s).2 =
        (if s.fromCommentsNavigation then slide_title_message env.slideIndex env.slideTitle
         else []) ++
        comment_count_message env.comments ++
        (if (if env.notesText = "" then false
             else strContains env.notesText ("****")) then ["has notes"] else []) := by
      by_cases hcw : s.currentWindow = true
      · by_cases hin : s.inSlideshow = true <;> by_cases hnav : s.fromCommentsNavigation = true <;>
          simp [announce_slide_comments, is_slideshow_running, get_current_slide_index,
            get_slide_title, get_comments_on_current_slide, get_slide_notes,
            has_meeting_notes, getWindow, hp, hrun, hin, hnav, hcw]
      · have hact : env.activeWindow = true := by
          simp [getWindow, hcw, hp] at hw
          exact hw
        by_cases hin : s.inSlideshow = true <;> by_cases hnav : s.fromCommentsNavigation = true <;>
          simp [announce_slide_comments, is_slideshow_running, get_current_slide_index,
            get_slide_title, get_comments_on_current_slide, get_slide_notes,
            has_meeting_notes, getWindow, hp, hrun, hin, hnav, hcw, hact]
    have htitle : ∀ t : String, (':') ∉ t.data → ¬ t.data.head? = some 'S' →
        t ∉ (if s.fromCommentsNavigation then
               slide_title_message env.slideIndex env.slideTitle else []) := by
      intro t h1 h2
      split
      · exact not_mem_slide_title_message _ _ _ h1 h2
      · simp
    have hnotes : ∀ t : String,
        t ∈ (if (if env.notesText = "" then false
                 else strContains env.notesText ("****")) then ["has notes"] else []) →
        t = "has notes" := by
      intro t ht
      split at ht
      · simp at ht
      · simp at ht
        exact ht.2
    refine ⟨?_, ?_, ?_, ?_⟩
    · -- "No comments" iff empty
      rw [key]
      constructor
      · intro hmem
        by_contra hne
        rcases List.mem_append.1 hmem with hmem2 | hmem3
        · rcases List.mem_append.1 hmem2 with hmemT | hmemC
          · exact htitle _ (by decide) (by decide) hmemT
          · exact no_comments_not_mem_count _ hne hmemC
        · have := hnotes _ hmem3
          simp at this
      · intro he
        rw [he, comment_count_message_nil]
        exact List.mem_append_left _ (List.mem_append_right _ (by simp))
    · -- length = 1
      intro h1
      have hne : env.comments ≠ [] := by
        intro he
        rw [he] at h1
        simp at h1
      have hcount : comment_count_message env.comments = ["Has 1 comment"] := by
        rw [comment_count_message_cons _ hne, h1]
        decide
      constructor
      · rw [key, hcount]
        exact List.mem_append_left _ (List.mem_append_right _ (by simp))
      · rw [key]
        intro hmem
        rcases List.mem_append.1 hmem with hmem2 | hmem3
        · rcases List.mem_append.1 hmem2 with hmemT | hmemC
          · exact htitle _ (by decide) (by decide) hmemT
          · rw [hcount] at hmemC
            simp at hmemC
        · have := hnotes _ hmem3
          simp at this
    · -- length ≠ 1
      intro hne h1
      have hcount : comment_count_message env.comments
          = ["Has " ++ toString env.comments.length ++ " comments"] := by
        rw [comment_count_message_cons _ hne, if_pos h1, comment_plural]
      rw [key, hcount]
      exact List.mem_append_left _ (List.mem_append_right _ (by simp))
    · -- "has notes" iff markers
      rw [key]
      constructor
      · intro hmem
        rcases List.mem_append.1 hmem with hmem2 | hmem3
        · exfalso
          rcases List.mem_append.1 hmem2 with hmemT | hmemC
          · exact htitle _ (by decide) (by decide) hmemT
          · exact has_notes_not_mem_count _ hmemC
        · by_cases hemp : env.notesText = ""
          · rw [if_pos hemp] at hmem3
            simp at hmem3
          · rw [if_neg hemp] at hmem3
            by_cases hc : strContains env.notesText ("****") = true
            · exact hc
            · rw [Bool.not_eq_true] at hc
              rw [hc] at hmem3
              simp at hmem3
      · intro hc
        have hemp : env.notesText ≠ "" := by
          intro he
          rw [he] at hc
          exact absurd hc (by decide)
        rw [if_neg hemp, hc, if_pos rfl]
        exact List.mem_append_right _ (by simp)

/-- Witness for C3: a concrete environment with two comments and marked
notes, outside a slideshow. -/
theorem claim_C3_witness :
    let env : ComEnv := ⟨true, true, true, 9, 3, "Overview", 10,
      [⟨"first", "alice"⟩, ⟨"second", "bob"⟩], "**** hello ****", false⟩
    let s : WorkerState := { initialWorkerState with pptApp := true, currentWindow := true }
    (env.slideshowRunning = true → (announce_slide_comments env s).2 = []) ∧
    (env.slideshowRunning = false →
      (("No comments" ∈ (announce_slide_comments env s).2) ↔ env.comments = []) ∧
      (env.comments.length = 1 →
        ("Has 1 comment" ∈ (announce_slide_comments env s).2) ∧
        ¬ ("Has 1 comments" ∈ (announce_slide_comments env s).2)) ∧
      (env.comments ≠ [] → env.comments.length ≠ 1 →
        ("Has " ++ toString env.comments.length ++ " comments")
          ∈ (announce_slide_comments env s).2) ∧
      (("has notes" ∈ (announce_slide_comments env s).2)
        ↔ strContains env.notesText ("****") = true)) :=
  claim_C3 _ _ rfl rfl

/-- C4 is false as stated: the worker retains derived state beyond transient
COM object handles.  Two states with identical COM handles (and identical live
COM data) but different `_last_announced_slide` values behave differently on
the same slide-change event — one announces the slide's comments, the other
suppresses the announcement. -/
theorem claim_C4_counterexample :
    let env : ComEnv := ⟨true, true, true, 9, 5, "", 10, [], "", false⟩
    let sA : WorkerState := { initialWorkerState with
      pptApp := true, currentWindow := true, hasReceivedFocus := true,
      lastAnnouncedSlide := 5 }
    let sB : WorkerState := { initialWorkerState with
      pptApp := true, currentWindow := true, hasReceivedFocus := true }
    comHandleFields sA = comHandleFields sB ∧
    (on_slide_changed_event env 5 false sA).2 = [] ∧
    (on_slide_changed_event env 5 false sB).2 = ["No comments"] ∧
    ¬ ((on_slide_changed_event env 5 false sA).2
        = (on_slide_changed_event env 5 false sB).2) := by
  decide

/-- The announcements of `_announce_slide_comments` depend only on the live
COM environment and on the worker's bookkeeping fields (`_ppt_app`,
`_current_window`, `_in_slideshow`, `_slideshow_window`,
`_from_comments_navigation`): no slide or comment data is read from the
worker state. -/
theorem announce_slide_comments_congr (env : ComEnv) (s t : WorkerState)
    (h1 : t.pptApp = s.pptApp) (h2 : t.currentWindow = s.currentWindow)
    (h3 : t.inSlideshow = s.inSlideshow) (h4 : t.slideshowWindow = s.slideshowWindow)
    (h5 : t.fromCommentsNavigation = s.fromCommentsNavigation) :
    (announce_slide_comments env t).2 = (announce_slide_comments env s).2 := by
  cases ha : s.pptApp <;> cases hb : s.currentWindow <;> cases hc : s.inSlideshow <;>
    cases hd : s.slideshowWindow <;> cases he : s.fromCommentsNavigation <;>
      cases hrun : env.slideshowRunning <;>
        simp [announce_slide_comments, is_slideshow_running, get_current_slide_index,
          get_slide_title, get_comments_on_current_slide, get_slide_notes,
          has_meeting_notes, getWindow, h1, h2, h3, h4, h5, ha, hb, hc, hd, he, hrun]

/-- C4 (amended): besides transient COM object handles the worker retains
bookkeeping state — notably `_last_announced_slide`, which suppresses a
duplicate slide-change event — but the slide and comment data used for each
announcement are queried live from the host application on each event: a
duplicate index produces no announcement and leaves the recorded index
unchanged, a new index is recorded and the announcements are a function of
the live environment and the bookkeeping fields only. -/
theorem claim_C4 (env : ComEnv) (s : WorkerState) (idx : Int) (wg : Bool) :
    (idx = s.lastAnnouncedSlide →
       (on_slide_changed_event env idx wg s).2 = [] ∧
       (on_slide_changed_event env idx wg s).1.lastAnnouncedSlide = s.lastAnnouncedSlide) ∧
    (idx ≠ s.lastAnnouncedSlide →
       (on_slide_changed_event env idx wg s).1.lastAnnouncedSlide = idx ∧
       ∀ t : WorkerState, t.pptApp = s.pptApp → t.currentWindow = s.currentWindow →
         t.inSlideshow = s.inSlideshow → t.slideshowWindow = s.slideshowWindow →
         t.fromCommentsNavigation = s.fromCommentsNavigation →
         t.lastAnnouncedSlide = s.lastAnnouncedSlide →
         (on_slide_changed_event env idx wg t).2 = (on_slide_changed_event env idx wg s).2) := by
  constructor
  · intro he
    cases hwg : wg <;> cases hcw : s.currentWindow <;> cases hpp : s.pptApp <;>
      simp [on_slide_changed_event, he, hwg, hcw, hpp]
  · intro hne
    have hlast : ∀ u : WorkerState,
        (announce_slide_comments env u).1.lastAnnouncedSlide = u.lastAnnouncedSlide := by
      intro u
      cases h1 : is_slideshow_running env u <;> cases h2 : u.inSlideshow <;>
        cases h3 : u.fromCommentsNavigation <;>
          simp [announce_slide_comments, h1, h2, h3]
    constructor
    · cases hwg : wg <;> cases hcw : s.currentWindow <;> cases hpp : s.pptApp <;>
        simp [on_slide_changed_event, hwg, hcw, hpp, hne, hlast]
    · intro t t1 t2 t3 t4 t5 t6
      have hview : ∀ u v : WorkerState, u.pptApp = v.pptApp → u.currentWindow = v.currentWindow →
          ensure_normal_view env u = ensure_normal_view env v := by
        intro u v hu hv
        simp [ensure_normal_view, getWindow, hu, hv]
      cases hwg : wg <;> cases hcw : s.currentWindow <;> cases hpp : s.pptApp <;>
        · simp only [on_slide_changed_event, hwg, hcw, hpp, t1, t2, t3, t4, t5, t6,
            if_true, if_false, Bool.false_eq_true, Bool.true_eq_false, not_false_iff,
            and_true, and_false, true_and, false_and, ite_true, ite_false, if_neg hne,
            Bool.not_eq_true, not_true, not_false_eq_true]
          exact congrArg₂ (fun a b => a ++ b) (hview _ _ rfl rfl)
            (announce_slide_comments_congr env _ _ rfl rfl rfl rfl rfl)

/-- Witness for C4 (amended): at a concrete event and state. -/
theorem claim_C4_witness :
    let env : ComEnv := ⟨true, true, true, 9, 5, "", 10, [], "", false⟩
    let sA : WorkerState := { initialWorkerState with
      pptApp := true, currentWindow := true, hasReceivedFocus := true }
    (on_slide_changed_event env 5 false sA).1.lastAnnouncedSlide = 5 ∧
    (on_slide_changed_event env 5 false { sA with initialized := true }).2
      = (on_slide_changed_event env 5 false sA).2 :=
  ⟨((claim_C4 _ _ 5 false).2 (by decide)).1,
   ((claim_C4 _ _ 5 false).2 (by decide)).2 _ rfl rfl rfl rfl rfl rfl⟩

/-- C7: `_initialize_com` first obtains the application object; only when an
active presentation exists does it connect the event sink via the advise
connection before checking and announcing the initial slide, setting
`_initialized` afterwards; with no active presentation, or when obtaining the
application fails, `_initialized` is false and no announcement is made. -/
theorem claim_C7 (env : ComEnv) (s : WorkerState) :
    (env.comOk = false →
       (initialize_com env s).1.initialized = false ∧
       (initialize_com env s).1.pptApp = false ∧
       (initialize_com env s).2 = []) ∧
    (env.comOk = true → env.presentationsNonzero = false ∨ env.activeWindow = false →
       (initialize_com env s).1.initialized = false ∧
       (initialize_com env s).2 = []) ∧
    (env.comOk = true → env.presentationsNonzero = true → env.activeWindow = true →
       (initialize_com env s).1.initialized = true ∧
       (initialize_com env s).2 =
         (ensure_normal_view env { s with pptApp := true }).map WorkerEvent.announce ++
           WorkerEvent.connectEvents ::
             (check_initial_slide env { s with pptApp := true, eventSink := true }).2.map
               WorkerEvent.announce) := by
  refine ⟨?_, ?_, ?_⟩
  · intro h
    simp [initialize_com, h]
  · intro h hcase
    rcases hcase with h2 | h2 <;>
      simp [initialize_com, has_active_presentation, h, h2]
  · intro h h2 h3
    simp [initialize_com, has_active_presentation, h, h2, h3]

/-- Witness for C7: all three hypotheses discharged at concrete environments. -/
theorem claim_C7_witness :
    ((initialize_com ⟨false, false, false, 9, 1, "", 1, [], "", false⟩ initialWorkerState).1.initialized = false ∧
     (initialize_com ⟨false, false, false, 9, 1, "", 1, [], "", false⟩ initialWorkerState).1.pptApp = false ∧
     (initialize_com ⟨false, false, false, 9, 1, "", 1, [], "", false⟩ initialWorkerState).2 = []) ∧
    ((initialize_com ⟨true, false, false, 9, 1, "", 1, [], "", false⟩ initialWorkerState).1.initialized = false ∧
     (initialize_com ⟨true, false, false, 9, 1, "", 1, [], "", false⟩ initialWorkerState).2 = []) ∧
    ((initialize_com ⟨true, true, true, 9, 1, "", 1, [], "", false⟩ initialWorkerState).1.initialized = true ∧
     (initialize_com ⟨true, true, true, 9, 1, "", 1, [], "", false⟩ initialWorkerState).2 =
       (ensure_normal_view ⟨true, true, true, 9, 1, "", 1, [], "", false⟩
           { initialWorkerState with pptApp := true }).map WorkerEvent.announce ++
         WorkerEvent.connectEvents ::
           (check_initial_slide ⟨true, true, true, 9, 1, "", 1, [], "", false⟩
               { initialWorkerState with pptApp := true, eventSink := true }).2.map
             WorkerEvent.announce) :=
  ⟨(claim_C7 ⟨false, false, false, 9, 1, "", 1, [], "", false⟩ initialWorkerState).1 rfl,
   (claim_C7 ⟨true, false, false, 9, 1, "", 1, [], "", false⟩ initialWorkerState).2.1 rfl
     (Or.inl rfl),
   (claim_C7 ⟨true, true, true, 9, 1, "", 1, [], "", false⟩ initialWorkerState).2.2 rfl rfl rfl⟩

/-- C9: `_navigate_slide` is bounds-checked — with a window whose current
slide index is `i` in a presentation of `n` slides and direction `d ∈ {1,-1}`,
it calls `GotoSlide(i+d)` and returns true exactly when `1 ≤ i+d ≤ n`;
for `i+d < 1` it announces "First slide" and returns false without navigating;
for `i+d > n` it announces "Last slide" and returns false without navigating;
with no window it announces "Cannot navigate - no active presentation" and
returns false. -/
theorem claim_C9 (env : ComEnv) (s : WorkerState) (d : Int) (_hd : d = 1 ∨ d = -1)
    (hi : 1 ≤ env.slideIndex) (hin : env.slideIndex ≤ env.slideCount) :
    (getWindow env s = false →
       navigate_slide env s d = (none, ["Cannot navigate - no active presentation"], false)) ∧
    (getWindow env s = true →
       (1 ≤ env.slideIndex + d ∧ env.slideIndex + d ≤ env.slideCount →
          navigate_slide env s d = (some (env.slideIndex + d), [], true)) ∧
       (env.slideIndex + d < 1 →
          navigate_slide env s d = (none, ["First slide"], false)) ∧
       (env.slideIndex + d > env.slideCount →
          navigate_slide env s d = (none, ["Last slide"], false)) ∧
       ((navigate_slide env s d).2.2 = true ↔
          1 ≤ env.slideIndex + d ∧ env.slideIndex + d ≤ env.slideCount)) := by
  constructor
  · intro hw
    simp [navigate_slide, hw]
  · intro hw
    refine ⟨?_, ?_, ?_, ?_⟩
    · intro hrange
      rw [navigate_slide, if_neg (by simp [hw]), if_neg (by omega), if_neg (by omega)]
    · intro hlow
      rw [navigate_slide, if_neg (by simp [hw]), if_pos hlow]
    · intro hhigh
      rw [navigate_slide, if_neg (by simp [hw]), if_neg (by omega), if_pos hhigh]
    · constructor
      · intro htrue
        by_contra hcontra
        rw [navigate_slide, if_neg (by simp [hw])] at htrue
        rw [not_and_or] at hcontra
        rcases hcontra with hc | hc
        · rw [if_pos (by omega)] at htrue
          simp at htrue
        · rw [if_neg (by omega), if_pos (by omega)] at htrue
          simp at htrue
      · intro hrange
        rw [navigate_slide, if_neg (by simp [hw]), if_neg (by omega), if_neg (by omega)]

/-- Witness for C9: a middle slide, a window available, direction `1`. -/
theorem claim_C9_witness :
    (getWindow ⟨true, true, true, 9, 3, "", 10, [], "", false⟩
        { initialWorkerState with pptApp := true, currentWindow := true } = false →
       navigate_slide ⟨true, true, true, 9, 3, "", 10, [], "", false⟩
         { initialWorkerState with pptApp := true, currentWindow := true } 1
         = (none, ["Cannot navigate - no active presentation"], false)) ∧
    (getWindow ⟨true, true, true, 9, 3, "", 10, [], "", false⟩
        { initialWorkerState with pptApp := true, currentWindow := true } = true →
       (1 ≤ (3 : Int) + 1 ∧ (3 : Int) + 1 ≤ (10 : Int) →
          navigate_slide ⟨true, true, true, 9, 3, "", 10, [], "", false⟩
            { initialWorkerState with pptApp := true, currentWindow := true } 1
            = (some ((3 : Int) + 1), [], true)) ∧
       ((3 : Int) + 1 < 1 →
          navigate_slide ⟨true, true, true, 9, 3, "", 10, [], "", false⟩
            { initialWorkerState with pptApp := true, currentWindow := true } 1
            = (none, ["First slide"], false)) ∧
       ((3 : Int) + 1 > (10 : Int) →
          navigate_slide ⟨true, true, true, 9, 3, "", 10, [], "", false⟩
            { initialWorkerState with pptApp := true, currentWindow := true } 1
            = (none, ["Last slide"], false)) ∧
       ((navigate_slide ⟨true, true, true, 9, 3, "", 10, [], "", false⟩
            { initialWorkerState with pptApp := true, currentWindow := true } 1).2.2 = true ↔
          1 ≤ (3 : Int) + 1 ∧ (3 : Int) + 1 ≤ (10 : Int))) :=
  claim_C9 ⟨true, true, true, 9, 3, "", 10, [], "", false⟩
    { initialWorkerState with pptApp := true, currentWindow := true } 1 (Or.inl rfl)
    (by decide) (by decide)

/-! ### Claim C8 (`_clean_notes_text`): basic facts about runs and whitespace -/

/-- Four leading asterisks decompose the list. -/
theorem star4_elim {l : List Char} (h : star4 l = true) :
    ∃ t, l = '*' :: '*' :: '*' :: '*' :: t := by
  match l with
  | [] => simp [star4] at h
  | [a] => simp [star4, List.take] at h
  | [a, b] => simp [star4, List.take] at h
  | [a, b, c] => simp [star4, List.take] at h
  | a :: b :: c :: d :: t =>
      simp [star4, List.take] at h
      obtain ⟨h1, h2, h3, h4⟩ := h
      exact ⟨t, by rw [h1, h2, h3, h4]⟩

/-- A match start has an asterisk run of length at least four. -/
theorem star4_starRun {l : List Char} (h : star4 l = true) : 4 ≤ starRun l := by
  obtain ⟨t, rfl⟩ := star4_elim h
  simp [starRun, List.takeWhile_cons]

/-- A list headed by a non-asterisk has no four leading asterisks. -/
theorem star4_false_of_head {c : Char} {t : List Char} (hc : ¬ c = '*') :
    star4 (c :: t) = false := by
  simp [star4, List.take]
  intro h
  exact absurd h hc

/-- A list headed by a whitespace character has no four leading asterisks. -/
theorem star4_false_of_space {c : Char} {t : List Char} (hc : isSpace c = true) :
    star4 (c :: t) = false := by
  apply star4_false_of_head
  intro he
  rw [he] at hc
  exact absurd hc (by decide)

/-- Correctness of `findStars4`: the found position bears four asterisks. -/
theorem findStars4_star4 : ∀ {l : List Char} {i : Nat}, findStars4 l = some i →
    star4 (l.drop i) = true := by
  intro l
  induction l with
  | nil => intro i h; simp [findStars4] at h
  | cons c cs ih =>
    intro i h
    by_cases hs : star4 (c :: cs) = true
    · rw [findStars4, if_pos hs] at h
      cases h
      exact hs
    · rw [findStars4, if_neg hs] at h
      rcases Option.map_eq_some'.1 h with ⟨i', hi', rfl⟩
      exact ih hi'

/-- Minimality of `findStars4`: no earlier position bears four asterisks. -/
theorem findStars4_min : ∀ {l : List Char} {i : Nat}, findStars4 l = some i →
    ∀ k, k < i → star4 (l.drop k) = false := by
  intro l
  induction l with
  | nil => intro i h; simp [findStars4] at h
  | cons c cs ih =>
    intro i h k hk
    by_cases hs : star4 (c :: cs) = true
    · rw [findStars4, if_pos hs] at h
      cases h
      omega
    · rw [findStars4, if_neg hs] at h
      rcases Option.map_eq_some'.1 h with ⟨i', hi', rfl⟩
      cases k with
      | zero => simpa using hs
      | succ k' => exact ih hi' k' (by omega)

/-- Completeness of `findStars4`: a position bearing four asterisks with no
earlier such position is the found position. -/
theorem findStars4_intro : ∀ {l : List Char} (i : Nat),
    star4 (l.drop i) = true → (∀ k, k < i → star4 (l.drop k) = false) →
    findStars4 l = some i := by
  intro l
  induction l with
  | nil =>
    intro i h _
    rw [List.drop_nil] at h
    exact absurd h (by decide)
  | cons c cs ih =>
    intro i h hmin
    cases i with
    | zero =>
      rw [List.drop_zero] at h
      rw [findStars4, if_pos h]
    | succ i' =>
      have hs : star4 (c :: cs) = false := hmin 0 (by omega)
      rw [findStars4, if_neg (by simp [hs])]
      rw [ih i' (by simpa using h) (fun k hk => by simpa using hmin (k + 1) (by omega))]
      rfl

/-- `\s*` skips an all-whitespace prefix entirely. -/
theorem dropWs_append_ws {a : List Char} (ha : ∀ c ∈ a, isSpace c = true) (y : List Char) :
    dropWs (a ++ y) = dropWs y := by
  induction a with
  | nil => rfl
  | cons c a' ih =>
    rw [List.cons_append, dropWs, List.dropWhile_cons, if_pos (ha c (by simp))]
    exact ih (fun d hd => ha d (by simp [hd]))

/-- `\s*` does not move past an asterisk. -/
theorem dropWs_star {l : List Char} (h : star4 l = true) : dropWs l = l := by
  obtain ⟨t, rfl⟩ := star4_elim h
  rw [dropWs, List.dropWhile_cons, if_neg (by decide)]

/-- If even after skipping whitespace no four asterisks follow, then none
follow directly. -/
theorem star4_of_dropWs_false {l : List Char} (h : star4 (dropWs l) = false) :
    star4 l = false := by
  by_cases hl : star4 l = true
  · rw [dropWs_star hl] at h
    rw [h] at hl
    cases hl
  · simpa using hl

/-- Inside an all-whitespace prefix no four asterisks start. -/
theorem ws_prefix_no_star4 : ∀ {w : List Char}, (∀ c ∈ w, isSpace c = true) →
    ∀ (x : List Char) (k : Nat), k < w.length → star4 ((w ++ x).drop k) = false := by
  intro w
  induction w with
  | nil => intro _ x k hk; simp at hk
  | cons c w' ih =>
    intro hw x k hk
    cases k with
    | zero =>
      exact star4_false_of_space (hw c (by simp))
    | succ k' =>
      rw [List.cons_append, List.drop_succ_cons]
      exact ih (fun d hd => hw d (by simp [hd])) x k' (by simpa using hk)

/-- Dropping whitespace never lengthens a list. -/
theorem dropWs_length_le (l : List Char) : (dropWs l).length ≤ l.length := by
  induction l with
  | nil => simp [dropWs]
  | cons c cs ih =>
    rw [dropWs, List.dropWhile_cons]
    split
    · exact le_trans ih (by simp)
    · simp

/-! ### Claim C8: the lazy group and the greedy run -/

/-- If four asterisks occur anywhere in `m`, the lazy `(.*?)\s*\*{4,}` finds a
split. -/
theorem lazySplit_some_of_star4 : ∀ {m : List Char} {k : Nat},
    star4 (m.drop k) = true → ∃ g, lazySplit m = some g := by
  intro m
  induction m with
  | nil =>
    intro k h
    rw [List.drop_nil] at h
    exact absurd h (by decide)
  | cons c cs ih =>
    intro k h
    by_cases hh : star4 (dropWs (c :: cs)) = true
    · exact ⟨[], by rw [lazySplit, if_pos hh]⟩
    · cases k with
      | zero =>
        rw [List.drop_zero] at h
        rw [dropWs_star h] at hh
        exact absurd h hh
      | succ k' =>
        rw [List.drop_succ_cons] at h
        obtain ⟨g, hg⟩ := ih h
        exact ⟨c :: g, by rw [lazySplit, if_neg hh, hg]; rfl⟩

/-- Characterization of a successful lazy split: the group is a prefix, the
continuation `\s*\*{4,}` matches right after it, and at no earlier position. -/
theorem lazySplit_eq : ∀ {m g : List Char}, lazySplit m = some g →
    ∃ t, m = g ++ t ∧ star4 (dropWs t) = true ∧
      ∀ k, k < g.length → star4 (dropWs (m.drop k)) = false := by
  intro m
  induction m with
  | nil =>
    intro g h
    rw [lazySplit, if_neg (by decide)] at h
    cases h
  | cons c cs ih =>
    intro g h
    by_cases hh : star4 (dropWs (c :: cs)) = true
    · rw [lazySplit, if_pos hh] at h
      cases h
      exact ⟨c :: cs, rfl, hh, fun k hk => by simp at hk⟩
    · rw [lazySplit, if_neg hh] at h
      rcases Option.map_eq_some'.1 h with ⟨g', hg', rfl⟩
      obtain ⟨t, heq, hstar, hmin⟩ := ih hg'
      refine ⟨t, by rw [heq]; rfl, hstar, ?_⟩
      intro k hk
      cases k with
      | zero => simpa using hh
      | succ k' =>
        rw [List.drop_succ_cons]
        exact hmin k' (by simpa using hk)

/-- The greedy `\*{4,}` succeeds on its first attempt when the continuation
matches after the whole run. -/
theorem matchGreedy_top {l : List Char} {n : Nat} {g : List Char} (h4 : 4 ≤ n)
    (h : lazySplit (dropWs (l.drop n)) = some g) : matchGreedy l n = some g := by
  cases n with
  | zero => omega
  | succ n' =>
    rw [matchGreedy, if_neg (by omega), h]

/-- `re.search` finds the match started at the first position bearing four
asterisks, when the greedy/lazy body succeeds there. -/
theorem marker_search_at : ∀ {l : List Char} {i : Nat} {g : List Char},
    findStars4 l = some i →
    matchGreedy (l.drop i) (starRun (l.drop i)) = some g →
    marker_search l = some g := by
  intro l
  induction l with
  | nil => intro i g h _; simp [findStars4] at h
  | cons c cs ih =>
    intro i g h hm
    by_cases hs : star4 (c :: cs) = true
    · rw [findStars4, if_pos hs] at h
      cases h
      rw [List.drop_zero] at hm
      rw [marker_search, if_pos hs, hm]
    · rw [findStars4, if_neg hs] at h
      rcases Option.map_eq_some'.1 h with ⟨i', hi', rfl⟩
      rw [List.drop_succ_cons] at hm
      rw [marker_search, if_neg hs]
      exact ih hi' hm

/-! ### Claim C8: tag matching under whitespace affixes -/

/-- `stripCI` never lengthens the input. -/
theorem stripCI_length : ∀ {p a r : List Char}, stripCI p a = some r → r.length ≤ a.length := by
  intro p
  induction p with
  | nil => intro a r h; cases h; exact le_refl _
  | cons x ps ih =>
    intro a r h
    cases a with
    | nil => cases h
    | cons c cs =>
      rw [stripCI] at h
      by_cases hc : c.toLower = x
      · rw [if_pos hc] at h
        exact le_trans (ih h) (by simp)
      · rw [if_neg hc] at h
        cases h

/-- `stripCI` only reads the consumed prefix: appending on the right commutes
with a successful strip. -/
theorem stripCI_append_some : ∀ {p a r : List Char} (z : List Char),
    stripCI p a = some r → stripCI p (a ++ z) = some (r ++ z) := by
  intro p
  induction p with
  | nil => intro a r z h; cases h; rfl
  | cons x ps ih =>
    intro a r z h
    cases a with
    | nil => cases h
    | cons c cs =>
      rw [stripCI] at h
      by_cases hc : c.toLower = x
      · rw [if_pos hc] at h
        rw [List.cons_append, stripCI, if_pos hc]
        exact ih z h
      · rw [if_neg hc] at h
        cases h

/-- A failing strip still fails after appending characters none of which can
match a pattern character. -/
theorem stripCI_append_none : ∀ {p a : List Char} (z : List Char),
    (∀ c ∈ z, ∀ q ∈ p, ¬ c.toLower = q) →
    stripCI p a = none → stripCI p (a ++ z) = none := by
  intro p
  induction p with
  | nil => intro a z _ h; cases h
  | cons x ps ih =>
    intro a z hz h
    cases a with
    | nil =>
      rw [List.nil_append]
      cases z with
      | nil => rfl
      | cons c z2 =>
        rw [stripCI, if_neg (hz c (by simp) x (by simp))]
    | cons c cs =>
      rw [stripCI] at h
      by_cases hc : c.toLower = x
      · rw [if_pos hc] at h
        rw [List.cons_append, stripCI, if_pos hc]
        exact ih z (fun d hd q hq => hz d hd q (by simp [hq])) h
      · rw [List.cons_append, stripCI, if_neg hc]

/-- `tagSlash` never lengthens the input. -/
theorem tagSlash_length (t : List Char) : (tagSlash t).length ≤ t.length := by
  cases t with
  | nil => exact le_refl _
  | cons c2 t2 =>
    rw [tagSlash]
    split <;> simp

/-- A matched tag body is strictly shorter than its input. -/
theorem tagBody_length {w1 w2 t1 r : List Char} (h : tagBody w1 w2 t1 = some r) :
    r.length < t1.length := by
  rw [tagBody] at h
  split at h
  · cases h
  · rename_i r1 h1
    split at h
    · cases h
    · rename_i t3 h2
      split at h
      · cases h
      · rename_i c3 rest
        by_cases hc3 : c3 = '>'
        · rw [if_pos hc3] at h
          cases h
          have e1 := stripCI_length h1
          have e2 := stripCI_length h2
          have e3 := dropWs_length_le r1
          simp only [List.length_cons] at e2
          omega
        · rw [if_neg hc3] at h
          cases h

/-- A matched tag is strictly shorter than its input. -/
theorem tagAt_length {w1 w2 l r : List Char} (h : tagAt w1 w2 l = some r) :
    r.length < l.length := by
  cases l with
  | nil => cases h
  | cons c t =>
    rw [tagAt] at h
    by_cases hc : c = '<'
    · rw [if_pos hc] at h
      have := tagBody_length h
      have := tagSlash_length t
      simp only [List.length_cons]
      omega
    · rw [if_neg hc] at h
      cases h

/-- A matched tag body still matches, with the same consumption, after
appending to the input. -/
theorem tagBody_append_some {w1 w2 t1 r : List Char} (z : List Char) (hw2 : w2 ≠ [])
    (h : tagBody w1 w2 t1 = some r) : tagBody w1 w2 (t1 ++ z) = some (r ++ z) := by
  rw [tagBody] at h
  split at h
  · cases h
  · rename_i r1 h1
    split at h
    · cases h
    · rename_i t3 h2
      split at h
      · cases h
      · rename_i c3 rest
        by_cases hc3 : c3 = '>'
        · rw [if_pos hc3] at h
          cases h
          have hne : dropWs r1 ≠ [] := by
            intro hnil
            rw [hnil] at h2
            cases w2 with
            | nil => exact hw2 rfl
            | cons q qs => cases h2
          have hdw : dropWs (r1 ++ z) = dropWs r1 ++ z := by
            rw [dropWs, List.dropWhile_append, if_neg (by simpa [dropWs] using hne)]
            rfl
          simp only [tagBody, stripCI_append_some z h1, hdw, stripCI_append_some z h2,
            List.cons_append, if_pos hc3]
        · rw [if_neg hc3] at h
          cases h

/-- A failing tag body still fails after appending whitespace. -/
theorem tagBody_append_none {w1 w2 t1 : List Char} (z : List Char)
    (hz : ∀ c ∈ z, isSpace c = true)
    (hw1 : ∀ c q, isSpace c = true → q ∈ w1 → ¬ c.toLower = q)
    (hw2 : ∀ c q, isSpace c = true → q ∈ w2 → ¬ c.toLower = q)
    (hw2ne : w2 ≠ [])
    (h : tagBody w1 w2 t1 = none) : tagBody w1 w2 (t1 ++ z) = none := by
  rw [tagBody] at h
  split at h
  · rename_i h1
    simp only [tagBody, stripCI_append_none z (fun c hc q hq => hw1 c q (hz c hc) hq) h1]
  · rename_i r1 h1
    by_cases hnil : dropWs r1 = []
    · obtain ⟨q, qs, rfl⟩ : ∃ q qs, w2 = q :: qs := by
        cases w2 with
        | nil => exact absurd rfl hw2ne
        | cons q qs => exact ⟨q, qs, rfl⟩
      have hzz : dropWs (r1 ++ z) = [] := by
        rw [dropWs, List.dropWhile_append, if_pos (by simpa [dropWs] using hnil)]
        rw [List.dropWhile_eq_nil_iff]
        exact hz
      simp only [tagBody, stripCI_append_some z h1, hzz, stripCI]
    · have hdw : dropWs (r1 ++ z) = dropWs r1 ++ z := by
        rw [dropWs, List.dropWhile_append, if_neg (by simpa [dropWs] using hnil)]
        rfl
      split at h
      · rename_i h2
        simp only [tagBody, stripCI_append_some z h1, hdw,
          stripCI_append_none z (fun c hc q hq => hw2 c q (hz c hc) hq) h2]
      · rename_i t3 h2
        split at h
        · simp only [tagBody, stripCI_append_some z h1, hdw, stripCI_append_some z h2,
            List.nil_append]
          cases z with
          | nil => rfl
          | cons c z2 =>
            have hcne : ¬ c = '>' := by
              intro he
              have hsp := hz c (by simp)
              rw [he] at hsp
              exact absurd hsp (by decide)
            simp only [if_neg hcne]
        · rename_i c3 rest
          by_cases hc3 : c3 = '>'
          · rw [if_pos hc3] at h
            cases h
          · simp only [tagBody, stripCI_append_some z h1, hdw, stripCI_append_some z h2,
              List.cons_append, if_neg hc3]

/-- The tag body never matches an empty input (the second word needs
characters). -/
theorem tagBody_nil {w1 w2 : List Char} (hw2 : w2 ≠ []) : tagBody w1 w2 [] = none := by
  obtain ⟨q, qs, rfl⟩ : ∃ q qs, w2 = q :: qs := by
    cases w2 with
    | nil => exact absurd rfl hw2
    | cons q qs => exact ⟨q, qs, rfl⟩
  cases w1 with
  | nil => rfl
  | cons p ps => rfl

/-- The step equation of the slash step. -/
theorem tagSlash_cons (c2 : Char) (t2 : List Char) :
    tagSlash (c2 :: t2) = if c2 = '/' then t2 else c2 :: t2 := rfl

/-- The slash step commutes with appending when the input is nonempty. -/
theorem tagSlash_append {c2 : Char} {t2 : List Char} (z : List Char) :
    tagSlash (c2 :: t2 ++ z) = tagSlash (c2 :: t2) ++ z := by
  rw [show c2 :: t2 ++ z = c2 :: (t2 ++ z) from rfl, tagSlash_cons, tagSlash_cons]
  by_cases hc2 : c2 = '/'
  · rw [if_pos hc2, if_pos hc2]
  · rw [if_neg hc2, if_neg hc2]
    rfl

/-- A matched tag still matches, with the same consumption, after appending. -/
theorem tagAt_append_some {w1 w2 l r : List Char} (z : List Char) (hw2 : w2 ≠ [])
    (h : tagAt w1 w2 l = some r) : tagAt w1 w2 (l ++ z) = some (r ++ z) := by
  cases l with
  | nil => cases h
  | cons c t =>
    rw [tagAt] at h
    by_cases hc : c = '<'
    · rw [if_pos hc] at h
      cases t with
      | nil =>
        rw [tagSlash, tagBody_nil hw2] at h
        cases h
      | cons c2 t2 =>
        rw [List.cons_append, tagAt, if_pos hc, tagSlash_append]
        exact tagBody_append_some z hw2 h
    · rw [if_neg hc] at h
      cases h

/-- A non-matching tag position still does not match after appending
whitespace. -/
theorem tagAt_append_none {w1 w2 l : List Char} (z : List Char)
    (hz : ∀ c ∈ z, isSpace c = true)
    (hw1 : ∀ c q, isSpace c = true → q ∈ w1 → ¬ c.toLower = q)
    (hw2 : ∀ c q, isSpace c = true → q ∈ w2 → ¬ c.toLower = q)
    (hw2ne : w2 ≠ [])
    (h : tagAt w1 w2 l = none) : tagAt w1 w2 (l ++ z) = none := by
  cases l with
  | nil =>
    rw [List.nil_append]
    cases z with
    | nil => rfl
    | cons c z2 =>
      have hc : ¬ c = '<' := by
        intro he
        have hsp := hz c (by simp)
        rw [he] at hsp
        exact absurd hsp (by decide)
      rw [tagAt, if_neg hc]
  | cons c t =>
    rw [tagAt] at h
    by_cases hc : c = '<'
    · rw [if_pos hc] at h
      cases t with
      | nil =>
        rw [List.cons_append, List.nil_append, tagAt, if_pos hc]
        cases z with
        | nil => rw [tagSlash, tagBody_nil hw2ne]
        | cons c2 z2 =>
          have hc2 : ¬ c2 = '/' := by
            intro he
            have hsp := hz c2 (by simp)
            rw [he] at hsp
            exact absurd hsp (by decide)
          rw [tagSlash, if_neg hc2]
          have hb := @tagBody_append_none w1 w2 [] (c2 :: z2) hz hw1 hw2 hw2ne
            (tagBody_nil hw2ne)
          simpa using hb
      | cons c2 t2 =>
        rw [List.cons_append, tagAt, if_pos hc, tagSlash_append]
        exact tagBody_append_none z hz hw1 hw2 hw2ne h
    · rw [List.cons_append, tagAt, if_neg hc]

/-- The fuel of `removeTagF` is irrelevant once it covers the input length. -/
theorem removeTagF_fuel (w1 w2 : List Char) :
    ∀ (n : Nat) (l : List Char) (f1 f2 : Nat), l.length ≤ n → l.length ≤ f1 →
      l.length ≤ f2 → removeTagF w1 w2 f1 l = removeTagF w1 w2 f2 l := by
  intro n
  induction n with
  | zero =>
    intro l f1 f2 h1 _ _
    have hl : l = [] := List.length_eq_zero.1 (by omega)
    subst hl
    cases f1 <;> cases f2 <;> rfl
  | succ n ih =>
    intro l f1 f2 h1 h2 h3
    cases l with
    | nil => cases f1 <;> cases f2 <;> rfl
    | cons c cs =>
      cases f1 with
      | zero => simp at h2
      | succ f1' =>
        cases f2 with
        | zero => simp at h3
        | succ f2' =>
          cases ht : tagAt w1 w2 (c :: cs) with
          | some rest =>
            simp only [removeTagF, ht]
            have hlen := tagAt_length ht
            simp only [List.length_cons] at hlen h1 h2 h3
            exact ih rest f1' f2' (by omega) (by omega) (by omega)
          | none =>
            simp only [removeTagF, ht]
            simp only [List.length_cons] at h1 h2 h3
            rw [ih cs f1' f2' (by omega) (by omega) (by omega)]

/-- The step equation of `re.sub` tag removal. -/
theorem removeTag_cons (w1 w2 : List Char) (c : Char) (cs : List Char) :
    removeTag w1 w2 (c :: cs) =
      match tagAt w1 w2 (c :: cs) with
      | some rest => removeTag w1 w2 rest
      | none => c :: removeTag w1 w2 cs := by
  cases ht : tagAt w1 w2 (c :: cs) with
  | some rest =>
    simp only [removeTag, List.length_cons, removeTagF, ht]
    have hlen := tagAt_length ht
    simp only [List.length_cons] at hlen
    exact removeTagF_fuel w1 w2 cs.length rest cs.length rest.length (by omega) (by omega)
      (le_refl _)
  | none =>
    simp only [removeTag, List.length_cons, removeTagF, ht]

/-- No tag starts at a character other than `<`. -/
theorem tagAt_not_lt {w1 w2 : List Char} {c : Char} {cs : List Char} (hc : ¬ c = '<') :
    tagAt w1 w2 (c :: cs) = none := by
  rw [tagAt, if_neg hc]

/-- Tag removal passes an all-whitespace prefix through unchanged. -/
theorem removeTag_ws_leading {w1 w2 : List Char} {a : List Char}
    (ha : ∀ c ∈ a, isSpace c = true) (y : List Char) :
    removeTag w1 w2 (a ++ y) = a ++ removeTag w1 w2 y := by
  induction a with
  | nil => rfl
  | cons c a' ih =>
    have hc : ¬ c = '<' := by
      intro he
      have hsp := ha c (by simp)
      rw [he] at hsp
      exact absurd hsp (by decide)
    rw [List.cons_append]
    simp only [removeTag_cons, tagAt_not_lt hc]
    rw [ih (fun d hd => ha d (by simp [hd]))]
    rfl

/-- Tag removal leaves an all-whitespace list unchanged. -/
theorem removeTag_ws_id {w1 w2 : List Char} {a : List Char}
    (ha : ∀ c ∈ a, isSpace c = true) : removeTag w1 w2 a = a := by
  have h := @removeTag_ws_leading w1 w2 a ha []
  simpa [show removeTag w1 w2 [] = [] from rfl] using h

/-- Tag removal passes an all-whitespace suffix through unchanged. -/
theorem removeTag_ws_suffix_aux {w1 w2 : List Char} (z : List Char)
    (hz : ∀ c ∈ z, isSpace c = true)
    (hw1 : ∀ c q, isSpace c = true → q ∈ w1 → ¬ c.toLower = q)
    (hw2 : ∀ c q, isSpace c = true → q ∈ w2 → ¬ c.toLower = q)
    (hw2ne : w2 ≠ []) :
    ∀ (n : Nat) (x : List Char), x.length ≤ n →
      removeTag w1 w2 (x ++ z) = removeTag w1 w2 x ++ z := by
  intro n
  induction n with
  | zero =>
    intro x hx
    have hl : x = [] := List.length_eq_zero.1 (by omega)
    subst hl
    simpa using removeTag_ws_id hz
  | succ n ih =>
    intro x hx
    cases x with
    | nil => simpa using removeTag_ws_id hz
    | cons c cs =>
      cases ht : tagAt w1 w2 (c :: cs) with
      | some rest =>
        have h2 := tagAt_append_some z hw2ne ht
        rw [List.cons_append] at h2 ⊢
        simp only [removeTag_cons, h2, ht]
        have hrest := tagAt_length ht
        simp only [List.length_cons] at hrest hx
        exact ih rest (by omega)
      | none =>
        have h2 := tagAt_append_none z hz hw1 hw2 hw2ne ht
        rw [List.cons_append] at h2 ⊢
        simp only [removeTag_cons, h2, ht]
        simp only [List.length_cons] at hx
        rw [ih cs (by omega)]
        rfl

/-- Tag removal passes an all-whitespace suffix through unchanged. -/
theorem removeTag_ws_suffix {w1 w2 : List Char} (z : List Char)
    (hz : ∀ c ∈ z, isSpace c = true)
    (hw1 : ∀ c q, isSpace c = true → q ∈ w1 → ¬ c.toLower = q)
    (hw2 : ∀ c q, isSpace c = true → q ∈ w2 → ¬ c.toLower = q)
    (hw2ne : w2 ≠ []) (x : List Char) :
    removeTag w1 w2 (x ++ z) = removeTag w1 w2 x ++ z :=
  removeTag_ws_suffix_aux z hz hw1 hw2 hw2ne x.length x (le_refl _)

/-! ### Claim C8: whitespace collapse and strip -/

/-- The fuel of `collapseWsF` is irrelevant once it covers the input length. -/
theorem collapseWsF_fuel :
    ∀ (n : Nat) (l : List Char) (f1 f2 : Nat), l.length ≤ n → l.length ≤ f1 →
      l.length ≤ f2 → collapseWsF f1 l = collapseWsF f2 l := by
  intro n
  induction n with
  | zero =>
    intro l f1 f2 h1 _ _
    have hl : l = [] := List.length_eq_zero.1 (by omega)
    subst hl
    cases f1 <;> cases f2 <;> rfl
  | succ n ih =>
    intro l f1 f2 h1 h2 h3
    cases l with
    | nil => cases f1 <;> cases f2 <;> rfl
    | cons c cs =>
      cases f1 with
      | zero => simp at h2
      | succ f1' =>
        cases f2 with
        | zero => simp at h3
        | succ f2' =>
          simp only [collapseWsF]
          simp only [List.length_cons] at h1 h2 h3
          by_cases hc : isSpace c = true
          · rw [if_pos hc, if_pos hc]
            have hd := dropWs_length_le cs
            rw [ih (dropWs cs) f1' f2' (by omega) (by omega) (by omega)]
          · rw [if_neg hc, if_neg hc]
            rw [ih cs f1' f2' (by omega) (by omega) (by omega)]

/-- `collapseWs` on the empty list. -/
theorem collapseWs_nil : collapseWs [] = [] := rfl

/-- The step equation of whitespace collapsing. -/
theorem collapseWs_cons (c : Char) (cs : List Char) :
    collapseWs (c :: cs) =
      if isSpace c then ' ' :: collapseWs (dropWs cs) else c :: collapseWs cs := by
  rw [collapseWs]
  simp only [List.length_cons, collapseWsF]
  by_cases hc : isSpace c = true
  · rw [if_pos hc, if_pos hc]
    have hd := dropWs_length_le cs
    rw [collapseWsF_fuel cs.length (dropWs cs) cs.length (dropWs cs).length (by omega)
      (by omega) (le_refl _)]
    rfl
  · rw [if_neg hc, if_neg hc]
    rfl

/-- The step equation of trailing-whitespace stripping. -/
theorem trailStrip_cons (c : Char) (a : List Char) :
    trailStrip (c :: a) =
      if trailStrip a = [] then (if isSpace c then [] else [c]) else c :: trailStrip a := by
  rw [trailStrip, List.reverse_cons, List.dropWhile_append]
  by_cases h : List.dropWhile isSpace a.reverse = []
  · rw [if_pos (by simp [h])]
    rw [if_pos (by rw [trailStrip]; simp [h])]
    by_cases hc : isSpace c = true
    · rw [if_pos hc]
      simp [List.dropWhile_cons, hc]
    · rw [if_neg hc]
      simp [List.dropWhile_cons, hc]
  · rw [if_neg (by simp [h])]
    rw [if_neg (by rw [trailStrip]; simp [h])]
    rw [List.reverse_append, trailStrip]
    simp

/-- Stripping ignores a leading whitespace character. -/
theorem stripWs_cons_space {c : Char} (hc : isSpace c = true) (a : List Char) :
    stripWs (c :: a) = stripWs a := by
  rw [stripWs, stripWs, trailStrip_cons]
  by_cases h : trailStrip a = []
  · rw [if_pos h, if_pos hc, h]
  · rw [if_neg h, dropWs, List.dropWhile_cons, if_pos hc]
    rfl

/-- An all-whitespace list collapses and strips to nothing. -/
theorem trail_collapse_allws {z : List Char} (hz : ∀ c ∈ z, isSpace c = true) :
    trailStrip (collapseWs z) = [] := by
  cases z with
  | nil => rfl
  | cons c z2 =>
    rw [collapseWs_cons, if_pos (hz c (by simp))]
    have hdz : dropWs z2 = [] := by
      rw [dropWs, List.dropWhile_eq_nil_iff]
      exact fun d hd => hz d (by simp [hd])
    rw [hdz, collapseWs_nil]
    decide

/-- Collapsing after skipping leading whitespace strips to the same result. -/
theorem strip_collapse_dropWs (y : List Char) :
    stripWs (collapseWs (dropWs y)) = stripWs (collapseWs y) := by
  cases y with
  | nil => rfl
  | cons c ys =>
    by_cases hc : isSpace c = true
    · rw [dropWs, List.dropWhile_cons, if_pos hc]
      rw [collapseWs_cons, if_pos hc, stripWs_cons_space (by decide)]
      rfl
    · rw [dropWs, List.dropWhile_cons, if_neg hc]

/-- Collapse-and-strip ignores an all-whitespace prefix. -/
theorem strip_collapse_ws_leading {a : List Char} (ha : ∀ c ∈ a, isSpace c = true)
    (y : List Char) : stripWs (collapseWs (a ++ y)) = stripWs (collapseWs y) := by
  cases a with
  | nil => rfl
  | cons c a' =>
    rw [List.cons_append, collapseWs_cons, if_pos (ha c (by simp))]
    rw [dropWs_append_ws (fun d hd => ha d (by simp [hd])) y]
    rw [stripWs_cons_space (by decide)]
    exact strip_collapse_dropWs y

/-- Trailing strip of the collapse ignores an all-whitespace suffix. -/
theorem trail_collapse_ws_suffix_aux {z : List Char} (hz : ∀ c ∈ z, isSpace c = true) :
    ∀ (n : Nat) (y : List Char), y.length ≤ n →
      trailStrip (collapseWs (y ++ z)) = trailStrip (collapseWs y) := by
  intro n
  induction n with
  | zero =>
    intro y hy
    have hl : y = [] := List.length_eq_zero.1 (by omega)
    subst hl
    rw [List.nil_append, trail_collapse_allws hz]
    rfl
  | succ n ih =>
    intro y hy
    cases y with
    | nil =>
      rw [List.nil_append, trail_collapse_allws hz]
      rfl
    | cons c cs =>
      simp only [List.length_cons] at hy
      by_cases hc : isSpace c = true
      · rw [List.cons_append, collapseWs_cons, if_pos hc, collapseWs_cons, if_pos hc]
        by_cases hcs : dropWs cs = []
        · have h1 : dropWs (cs ++ z) = [] := by
            rw [dropWs, List.dropWhile_append, if_pos (by simpa [dropWs] using hcs)]
            rw [List.dropWhile_eq_nil_iff]
            exact hz
          rw [h1, hcs]
        · have h1 : dropWs (cs ++ z) = dropWs cs ++ z := by
            rw [dropWs, List.dropWhile_append, if_neg (by simpa [dropWs] using hcs)]
            rfl
          rw [h1]
          have hd := dropWs_length_le cs
          have ihh := ih (dropWs cs) (by omega)
          rw [trailStrip_cons, trailStrip_cons, ihh]
      · rw [List.cons_append, collapseWs_cons, if_neg hc, collapseWs_cons, if_neg hc]
        have ihh := ih cs (by omega)
        rw [trailStrip_cons, trailStrip_cons, ihh]

/-- Collapse-and-strip ignores an all-whitespace suffix. -/
theorem strip_collapse_ws_suffix {z : List Char} (hz : ∀ c ∈ z, isSpace c = true)
    (y : List Char) : stripWs (collapseWs (y ++ z)) = stripWs (collapseWs y) := by
  rw [stripWs, stripWs, trail_collapse_ws_suffix_aux hz y.length y (le_refl _)]

/-- Whitespace characters never match a letter of the tag words
case-insensitively. -/
theorem word_cond_of_not_mem {w : List Char}
    (h : (' ' ∉ w) ∧ ('\t' ∉ w) ∧ ('\n' ∉ w) ∧ ('\r' ∉ w) ∧ ('\x0B' ∉ w) ∧ ('\x0C' ∉ w)) :
    ∀ c q, isSpace c = true → q ∈ w → ¬ c.toLower = q := by
  intro c q hc hq he
  have hcc : c = ' ' ∨ c = '\t' ∨ c = '\n' ∨ c = '\r' ∨ c = '\x0B' ∨ c = '\x0C' := by
    simp [isSpace] at hc
    tauto
  have hl : c.toLower = c := by
    rcases hcc with rfl | rfl | rfl | rfl | rfl | rfl <;> decide
  rw [hl] at he
  subst he
  rcases hcc with rfl | rfl | rfl | rfl | rfl | rfl
  exacts [h.1 hq, h.2.1 hq, h.2.2.1 hq, h.2.2.2.1 hq, h.2.2.2.2.1 hq, h.2.2.2.2.2 hq]

/-- The full post-extraction cleaning pipeline is invariant under
all-whitespace affixes of the extracted group. -/
theorem postClean_ws_affixes (w g w2 : List Char)
    (hw : ∀ c ∈ w, isSpace c = true) (hw2 : ∀ c ∈ w2, isSpace c = true) :
    postClean (w ++ g ++ w2) = postClean g := by
  have word_m := word_cond_of_not_mem (w := meetingChars) (by decide)
  have word_c := word_cond_of_not_mem (w := criticalChars) (by decide)
  have word_n := word_cond_of_not_mem (w := notesChars) (by decide)
  have hno : notesChars ≠ [] := by decide
  rw [postClean, postClean, List.append_assoc]
  rw [removeTag_ws_leading hw, removeTag_ws_suffix w2 hw2 word_m word_n hno g]
  rw [removeTag_ws_leading hw]
  rw [removeTag_ws_suffix w2 hw2 word_c word_n hno _]
  rw [strip_collapse_ws_leading hw, strip_collapse_ws_suffix hw2]

/-! ### Claim C8: the found group is the between-runs text modulo whitespace -/

/-- Dropping past an appended prefix. -/
theorem drop_append_exact {α : Type} (a b : List α) (n : Nat) (h : a.length ≤ n) :
    (a ++ b).drop n = b.drop (n - a.length) := by
  rw [show n = a.length + (n - a.length) from by omega, List.drop_append]
  congr 1
  omega

/-- When the notes contain two runs of four or more asterisks, `re.search`
succeeds and its group is the text between the first run and the next,
stripped of some adjacent whitespace. -/
theorem marker_group_between {l mid : List Char} (h : betweenRuns l = some mid) :
    ∃ g w w2, marker_search l = some g ∧ mid = w ++ g ++ w2 ∧
      (∀ c ∈ w, isSpace c = true) ∧ (∀ c ∈ w2, isSpace c = true) := by
  rw [betweenRuns] at h
  cases hf : findStars4 l with
  | none => rw [hf] at h; cases h
  | some i =>
    simp only [hf] at h
    cases hf2 : findStars4 ((l.drop i).drop (starRun (l.drop i))) with
    | none => rw [hf2] at h; cases h
    | some j =>
      simp only [hf2, Option.some.injEq] at h
      have hstar_i : star4 (l.drop i) = true := findStars4_star4 hf
      have hr4 : 4 ≤ starRun (l.drop i) := star4_starRun hstar_i
      have hstar_j : star4 (((l.drop i).drop (starRun (l.drop i))).drop j) = true :=
        findStars4_star4 hf2
      set rest := (l.drop i).drop (starRun (l.drop i)) with hrestdef
      set w := rest.takeWhile isSpace with hwdef
      set m := dropWs rest with hmdef
      have hsplit : w ++ m = rest := List.takeWhile_append_dropWhile isSpace rest
      have hw : ∀ c ∈ w, isSpace c = true := fun c hc => List.mem_takeWhile_imp hc
      have hjw : w.length ≤ j := by
        by_contra hlt
        have hfalse := ws_prefix_no_star4 hw m j (by omega)
        rw [hsplit] at hfalse
        rw [hfalse] at hstar_j
        cases hstar_j
      have hstar_m : star4 (m.drop (j - w.length)) = true := by
        have hd : rest.drop j = m.drop (j - w.length) := by
          rw [← hsplit, drop_append_exact w m j hjw]
        rw [← hd]
        exact hstar_j
      obtain ⟨g, hg⟩ := lazySplit_some_of_star4 hstar_m
      obtain ⟨t, hmt, hstar_t, hming⟩ := lazySplit_eq hg
      set w2 := t.takeWhile isSpace with hw2def
      set tv := dropWs t with htv
      have hsplit2 : w2 ++ tv = t := List.takeWhile_append_dropWhile isSpace t
      have hw2 : ∀ c ∈ w2, isSpace c = true := fun c hc => List.mem_takeWhile_imp hc
      have hrest_decomp : rest = (w ++ (g ++ w2)) ++ tv := by
        rw [← hsplit, hmt, ← hsplit2]
        simp [List.append_assoc]
      have hlenpre : (w ++ (g ++ w2)).length = w.length + (g.length + w2.length) := by
        simp
      have hjc : findStars4 rest = some (w.length + (g.length + w2.length)) := by
        apply findStars4_intro
        · rw [hrest_decomp, ← hlenpre, List.drop_left]
          rwa [htv] at hstar_t
        · intro k hk
          by_cases hk1 : k < w.length
          · have hfalse := ws_prefix_no_star4 hw m k hk1
            rwa [hsplit] at hfalse
          · by_cases hk2 : k < w.length + g.length
            · have hd : rest.drop k = m.drop (k - w.length) := by
                rw [← hsplit, drop_append_exact w m k (by omega)]
              rw [hd]
              exact star4_of_dropWs_false (hming (k - w.length) (by omega))
            · have hd : rest.drop k = (w2 ++ tv).drop (k - (w.length + g.length)) := by
                have h2 : rest = (w ++ g) ++ (w2 ++ tv) := by
                  rw [hrest_decomp]
                  simp [List.append_assoc]
                rw [h2, drop_append_exact (w ++ g) _ k (by simp; omega)]
                congr 1
                simp
              rw [hd]
              exact ws_prefix_no_star4 hw2 tv _ (by omega)
      have hj_eq : j = w.length + (g.length + w2.length) := by
        rw [hf2] at hjc
        injection hjc
      have hmid : mid = w ++ g ++ w2 := by
        rw [← h, hj_eq, hrest_decomp, ← hlenpre, List.take_left, List.append_assoc]
      refine ⟨g, w, w2, ?_, hmid, hw, hw2⟩
      apply marker_search_at hf
      apply matchGreedy_top hr4
      rw [← hrestdef, ← hmdef]
      exact hg

/-- C8 is false exactly as stated: the tags the code removes allow any
whitespace run (including none) between the two words, not only a single
space — `<meetingnotes>` is removed by the code but is not one of the literal
tags the claim names. -/
theorem claim_C8_counterexample :
    hasTwoRuns ("**** <meetingnotes>hi</meetingnotes> ****") = true ∧
    clean_notes_text ("**** <meetingnotes>hi</meetingnotes> ****") = "hi" ∧
    clean_notes_claim_literal ("**** <meetingnotes>hi</meetingnotes> ****")
      = "<meetingnotes>hi</meetingnotes>" ∧
    clean_notes_text ("**** <meetingnotes>hi</meetingnotes> ****")
      ≠ clean_notes_claim_literal ("**** <meetingnotes>hi</meetingnotes> ****") := by
  refine ⟨rfl, rfl, rfl, ?_⟩
  decide

/-- C8 (amended): for every notes string containing at least two runs of four
or more asterisks, `_clean_notes_text` returns exactly the text between the
first such run and the next one (non-greedy), with the tags
`</?meeting\s*notes>` and `</?critical\s*notes>` (the two words separated by
any whitespace run, including none) removed case-insensitively, every run of
whitespace collapsed to a single space, and leading and trailing whitespace
stripped; for the empty string it returns the empty string. -/
theorem claim_C8 (notes : String) :
    (notes = "" → clean_notes_text notes = "") ∧
    (hasTwoRuns notes = true → clean_notes_text notes = clean_notes_spec notes) := by
  constructor
  · intro h
    rw [h]
    rfl
  · intro h
    rw [hasTwoRuns] at h
    cases hb : betweenRuns notes.data with
    | none => rw [hb] at h; cases h
    | some mid =>
      obtain ⟨g, w, w2, hsearch, hmid, hw, hw2⟩ := marker_group_between hb
      have hne : ¬ notes = "" := by
        intro he
        rw [he] at hb
        cases hb
      rw [clean_notes_text, if_neg hne, clean_notes_spec]
      simp only [hb, hsearch]
      rw [hmid, postClean_ws_affixes w g w2 hw hw2]

/-- Witness for C8 (amended): a concrete two-run notes string and the empty
string. -/
theorem claim_C8_witness :
    clean_notes_text ("**** <Meeting Notes> hi   there </meeting notes> ****")
      = clean_notes_spec ("**** <Meeting Notes> hi   there </meeting notes> ****") ∧
    clean_notes_text ("") = "" :=
  ⟨(claim_C8 ("**** <Meeting Notes> hi   there </meeting notes> ****")).2 (by decide),
   (claim_C8 ("")).1 rfl⟩
